import Mathlib

/-
Shallow embedding of src/inventory_parser.py.

Text is modelled as a list of characters. Python regular expressions are
embedded as explicit scanning functions that mirror the semantics of the
concrete patterns appearing in the source (leftmost match, greedy
quantifiers with backtracking where it matters, word boundaries).
Character classes are modelled over the character repertoire the program
actually handles: ASCII plus the Hebrew block U+0590..U+05FF; this agrees
with the Python semantics on every input built from those characters.
Python dicts are modelled as association lists in insertion order, which
is the iteration order of Python 3.7+ dicts.  The difflib-based fuzzy
matcher (an external library, not repository code) is a parameter of the
pipeline; difflib guarantees that a returned match is drawn from the
candidate list, which is the FuzzyOK hypothesis used below.
-/

namespace InvParser

abbrev Str := List Char

/-- Whitespace characters recognised by the Python regex class \s and by
str.strip for the ASCII range. -/
def isSpaceC (c : Char) : Bool :=
  c = ' ' || c = '\t' || c = '\n' || c = '\r' || c = Char.ofNat 11 || c = Char.ofNat 12

def isDigitC (c : Char) : Bool :=
  '0' ≤ c && c ≤ '9'

def isHebrewC (c : Char) : Bool :=
  1424 ≤ c.toNat && c.toNat ≤ 1535

/-- Word characters for the regex class \w and for word boundaries: ASCII
alphanumerics, underscore, and Hebrew letters (which are word characters
in Python regex over str). -/
def isWordC (c : Char) : Bool :=
  ('a' ≤ c && c ≤ 'z') || ('A' ≤ c && c ≤ 'Z') || isDigitC c || c = '_' || isHebrewC c

def isWordO : Option Char → Bool
  | none => false
  | some c => isWordC c

/-- Word boundary between two adjacent positions (none = outside the string). -/
def bnd (a b : Option Char) : Bool :=
  isWordO a != isWordO b

/-- ASCII lowercasing; characters outside A-Z (for instance Hebrew) are
unaffected, matching Python lower on this repertoire. -/
def lowerC (c : Char) : Char :=
  if 'A' ≤ c && c ≤ 'Z' then Char.ofNat (c.toNat + 32) else c

def lowerS (s : Str) : Str := s.map lowerC

def eqCI (a b : Char) : Bool := lowerC a = lowerC b

def isAsciiC (c : Char) : Bool := c.toNat ≤ 127

def isAsciiS (s : Str) : Bool := s.all isAsciiC

def lstrip (s : Str) : Str := s.dropWhile (fun c => isSpaceC c)

def rstrip (s : Str) : Str := (s.reverse.dropWhile (fun c => isSpaceC c)).reverse

def strip (s : Str) : Str := rstrip (lstrip s)

/-- Count of leading characters satisfying p. -/
def countLeading (p : Char → Bool) : Str → Nat
  | [] => 0
  | c :: cs => if p c then countLeading p cs + 1 else 0

/-- Case-insensitive literal prefix test: does s begin with pat. -/
def startsCI : Str → Str → Bool
  | [], _ => true
  | _ :: _, [] => false
  | p :: ps, c :: cs => eqCI p c && startsCI ps cs

/-- Case-sensitive literal prefix test. -/
def startsCS : Str → Str → Bool
  | [], _ => true
  | _ :: _, [] => false
  | p :: ps, c :: cs => (p = c) && startsCS ps cs

/-- Case-insensitive substring test, as used by the Python in operator on
lowered strings and by substring searches. -/
def isSubCI (pat : Str) : Str → Bool
  | [] => startsCI pat []
  | c :: cs => startsCI pat (c :: cs) || isSubCI pat cs

/-- Plain substring test, the Python in operator. -/
def isSubCS (pat : Str) : Str → Bool
  | [] => startsCS pat []
  | c :: cs => startsCS pat (c :: cs) || isSubCS pat cs

/-- Generic leftmost search: f sees the previous character and the suffix
at each position and reports a match value; the result pairs the match
position with that value. -/
def scanA {α : Type} (f : Option Char → Str → Option α) (prev : Option Char) (i : Nat) :
    Str → Option (Nat × α)
  | [] =>
    match f prev [] with
    | some a => some (i, a)
    | none => none
  | c :: cs =>
    match f prev (c :: cs) with
    | some a => some (i, a)
    | none => scanA f (some c) (i + 1) cs

def search {α : Type} (f : Option Char → Str → Option α) (s : Str) : Option (Nat × α) :=
  scanA f none 0 s

/-- Remove the span of length len starting at index i, exactly as the
Python text[:start] + text[end:] splice. -/
def removeSpan (s : Str) (i len : Nat) : Str :=
  s.take i ++ s.drop (i + len)

/-- Split on a single newline character, exactly as text.split with a
newline argument: returns empty fragments too. -/
def splitNL : Str → List Str
  | [] => [[]]
  | c :: cs =>
    let r := splitNL cs
    if c = '\n' then [] :: r
    else
      match r with
      | [] => [[c]]
      | h :: t => (c :: h) :: t

/-- Split on whitespace runs discarding empties, as Python str.split with
no arguments. -/
def splitWS (s : Str) : List Str :=
  ((s.foldr
    (fun c acc =>
      if isSpaceC c then ([], acc.1 :: acc.2)
      else (c :: acc.1, acc.2)) ([], [])) |> fun p => p.1 :: p.2).filter (fun w => w ≠ [])

/-- Join words with single spaces, as a Python join with a space separator. -/
def joinSpace : List Str → Str
  | [] => []
  | [w] => w
  | w :: ws => w ++ ' ' :: joinSpace ws

def natOfDigits (s : Str) : Nat :=
  s.foldl (fun acc c => acc * 10 + (c.toNat - 48)) 0

/-- Replace the first plain (case-sensitive) occurrence of pat by nothing,
as the Python str.replace with count 1. -/
def replaceFirst (pat : Str) : Str → Str
  | [] => []
  | c :: cs =>
    if startsCS pat (c :: cs) && pat ≠ [] then (c :: cs).drop pat.length
    else c :: replaceFirst pat cs

/-- Collapse every whitespace run into one space, as the Python
substitution of the regex of one-or-more whitespace by a single space.
The boolean tracks being inside a run already emitted. -/
def collapseGo (inRun : Bool) : Str → Str
  | [] => []
  | c :: cs =>
    if isSpaceC c then
      if inRun then collapseGo true cs else ' ' :: collapseGo true cs
    else c :: collapseGo false cs

def collapseWS (s : Str) : Str := collapseGo false s

/-- Stable sort in descending length order; Python sorted with a len key
and reverse, which keeps the original order of equal-length entries. -/
def insDesc {α : Type} (key : α → Nat) (x : α) : List α → List α
  | [] => [x]
  | y :: ys => if key x < key y then y :: insDesc key x ys else x :: y :: ys

def sortLenDescBy {α : Type} (key : α → Nat) (l : List α) : List α :=
  l.foldr (insDesc key) []

def sortLenDesc (l : List Str) : List Str :=
  sortLenDescBy (fun s => s.length) l

/-- First-match association lookup, the dict access of a dict with unique
keys (Python dicts never hold duplicate keys). -/
def lookupA {α : Type} (k : Str) : List (Str × α) → Option α
  | [] => none
  | (k2, v) :: rest => if k = k2 then some v else lookupA k rest

/-- Dict insertion semantics of Python: an existing key keeps its position
and gets the new value, a new key is appended. -/
def insertOver (l : List (Str × Str)) (k v : Str) : List (Str × Str) :=
  match l with
  | [] => [(k, v)]
  | (k2, v2) :: rest => if k = k2 then (k, v) :: rest else (k2, v2) :: insertOver rest k v

def memS (x : Str) (l : List Str) : Bool := l.contains x

/-- Truthiness of an optional string: Python treats a missing value and an
empty string as false. -/
def truthyS : Option Str → Bool
  | none => false
  | some s => s ≠ []

/-! Dates, modelling the Python datetime.date constructor: a value error
for a year outside 1..9999, a month outside 1..12 or a day outside the
month length becomes a none result (the source catches it). -/

structure PDate where
  y : Nat
  m : Nat
  d : Nat
deriving DecidableEq

def isLeap (y : Nat) : Bool :=
  (y % 4 = 0 && y % 100 ≠ 0) || y % 400 = 0

def daysInMonth (y m : Nat) : Nat :=
  if m = 2 then (if isLeap y then 29 else 28)
  else if m = 4 || m = 6 || m = 9 || m = 11 then 30
  else 31

def mkDate (y m d : Nat) : Option PDate :=
  if 1 ≤ y && y ≤ 9999 && 1 ≤ m && m ≤ 12 && 1 ≤ d && d ≤ daysInMonth y m then
    some ⟨y, m, d⟩
  else none

/-! Configuration, one field per key the source reads. A none scalar
field models an absent key (the source applies its default at each use
site); list and map fields default to empty exactly as a get with an
empty default does. -/

structure Config where
  items : List Str := []
  aliases : List (Str × Str) := []
  locations : List Str := []
  default_source : Option Str := none
  transaction_types : List Str := []
  action_verbs : List (Str × List Str) := []
  unit_conversions : List (Str × List (Str × Rat)) := []
  prepositions : Option (List (Str × List Str)) := none
  from_words : Option (List Str) := none
  filler_words : Option (List Str) := none
  non_zero_sum_types : Option (List Str) := none
  default_transfer_type : Option Str := none
deriving DecidableEq

/-- Partial record of one parsed line; every key of the dict built by the
line parser is a field here, with the two optional keys (the unmatched
leftover text and the batch number) as options. -/
structure Rec where
  raw : Str := []
  qty : Option Rat := none
  item : Option Str := none
  item_raw : Option Str := none
  container : Option Str := none
  trans_type : Option Str := none
  location : Option Str := none
  direction : Option Str := none
  pdate : Option PDate := none
  notes_extra : Option Str := none
  has_qty : Bool := false
  has_item : Bool := false
  unmatched : Option Str := none
  batch : Option Nat := none
deriving DecidableEq

/-- Output row; pending container marker and raw quantity are present only
when a container had no conversion factor. -/
structure Row where
  rdate : PDate
  inv_type : Option Str
  batch : Nat
  notes : Option Str
  pending_container : Option Str := none
  raw_qty : Option Rat := none
  qty : Rat
  trans_type : Option Str
  vehicle_sub_unit : Option Str
deriving DecidableEq

structure ParseResult where
  rows : List Row := []
  notes : List Str := []
  unparseable : List Str := []
deriving DecidableEq

/-- The difflib get_close_matches call with n = 1: given the word, the
candidate list and the cutoff it returns the best candidate above the
cutoff, if any. It is an external library, so the pipeline is
parameterised over it. -/
def Fuzzy : Type := Str → List Str → Rat → Option Str

/-- The degenerate fuzzy matcher that never finds anything; it agrees
with difflib whenever the candidate list is empty or all candidates are
clearly below the cutoff. -/
def noFuzzy : Fuzzy := fun _ _ _ => none

/-- Guarantee difflib provides: any returned match is one of the
candidates. -/
def FuzzyOK (fz : Fuzzy) : Prop :=
  ∀ w cs c m, fz w cs c = some m → m ∈ cs

/-- Exceptions escaping a stage; the embedding returns an error value
where the Python would raise. -/
abbrev Exc (α : Type) := Except String α

def excOk {α : Type} : Exc α → Bool
  | .ok _ => true
  | .error _ => false

instance {ε α : Type} [DecidableEq ε] [DecidableEq α] : DecidableEq (Except ε α) := fun x y =>
  match x, y with
  | .ok a, .ok b =>
    match decEq a b with
    | isTrue h => isTrue (by rw [h])
    | isFalse h => isFalse (by intro he; injection he; contradiction)
  | .error a, .error b =>
    match decEq a b with
    | isTrue h => isTrue (by rw [h])
    | isFalse h => isFalse (by intro he; injection he; contradiction)
  | .ok _, .error _ => isFalse (by intro he; injection he)
  | .error _, .ok _ => isFalse (by intro he; injection he)

/-! String constants of the source. -/

def sWarehouse : Str := "warehouse".data
def sTo : Str := "to".data
def sInto : Str := "into".data
def sBy : Str := "by".data
def sFrom : Str := "from".data
def sThe : Str := "the".data
def sHalf : Str := "half".data
def sTook : Str := "took".data
def sOut : Str := "out".data
def sOf : Str := "of".data
def sW2B : Str := "warehouse_to_branch".data
def sBaseUnit : Str := "base_unit".data
def sHad : Str := "had ".data
def sTotal : Str := " total".data
def sFromSp : Str := "from ".data
def marker1 : Str := "<This message was edited>".data
def marker2 : Str := "<Media omitted>".data

def sA : Str := "a".data
def sAn : Str := "an".data
def sSome : Str := "some".data
def sVia : Str := "via".data
def sWhat : Str := "what".data
def sThats : Str := "that".data ++ Char.ofNat 39 :: "s".data
def sS : Str := "s".data
def sEs : Str := "es".data
def sEaten : Str := "eaten".data
def sStartingPoint : Str := "starting_point".data
def sRecount : Str := "recount".data
def sS2W : Str := "supplier_to_warehouse".data
def errKey : String := "KeyError"
def errIndex : String := "IndexError"
def errRe : String := "re.error"

def defaultPreps : List (Str × List Str) :=
  [(sTo, [sTo, sInto]), (sBy, [sBy]), (sFrom, [sFrom])]

/-- The boundary-wrapped raw pattern a backslash-b pair on each side of a
word forms; the default filler list of the source is written in this
shape. -/
def rawB (w : Str) : Str := '\\' :: 'b' :: (w ++ ['\\', 'b'])

def defaultFiller : List Str :=
  [rawB sThats, rawB sWhat, rawB sThe, rawB sOf,
   rawB sA, rawB sAn, rawB sSome, rawB sVia]

def nonZeroSumDefault : List Str :=
  [sEaten, sStartingPoint, sRecount, sS2W]

def defaultSourceOf (cfg : Config) : Str :=
  cfg.default_source.getD sWarehouse

/-! Date extraction. Each regex of the source is a scanner; greedy
quantifier choices are forced here (a digit cannot match the following
literal), so trying the counts in decreasing order is exact. -/

def digitsRun (s : Str) : Nat := countLeading isDigitC s

/-- Match one-or-two digits followed by the given separator, returning
the digit count actually used (two preferred, as the greedy regex). -/
def numSep (sep : Char) (s : Str) : Option Nat :=
  [2, 1].findSome? fun k =>
    if digitsRun s ≥ k && (s.drop k).head? = some sep then some k else none

/-- Match two-to-four digits followed by a word boundary, greedy. -/
def numTail (s : Str) : Option Nat :=
  [4, 3, 2].findSome? fun k =>
    if digitsRun s ≥ k && !isWordO ((s.drop k).head?) then some k else none

/-- Scanner for the dot date regex: boundary, one-or-two digits, dot,
one-or-two digits, dot, two-to-four digits, boundary. Returns the match
length with the day, month and year values. -/
def matchDMYSep (sep : Char) (prev : Option Char) (s : Str) : Option (Nat × Nat × Nat × Nat) :=
  if !(bnd prev s.head?) then none
  else
    match numSep sep s with
    | none => none
    | some k1 =>
      let g1 := natOfDigits (s.take k1)
      let s1 := s.drop (k1 + 1)
      match numSep sep s1 with
      | none => none
      | some k2 =>
        let g2 := natOfDigits (s1.take k2)
        let s2 := s1.drop (k2 + 1)
        match numTail s2 with
        | none => none
        | some k3 =>
          let g3 := natOfDigits (s2.take k3)
          some (k1 + 1 + k2 + 1 + k3, g1, g2, g3)

/-- Scanner for the six-bare-digits regex with boundaries on both sides. -/
def matchSix (prev : Option Char) (s : Str) : Option (Nat × Nat × Nat × Nat) :=
  if !(bnd prev s.head?) then none
  else if digitsRun s ≥ 6 && !isWordO ((s.drop 6).head?) then
    let ds := s.take 6
    some (6, natOfDigits (ds.take 2), natOfDigits ((ds.drop 2).take 2),
      natOfDigits (ds.drop 4) + 2000)
  else none

def fixYear (y : Nat) : Nat := if y < 100 then y + 2000 else y

/-- Outcome of the six-digit stage: the found date with the spliced
remaining text, or none (no match, or a caught invalid date). -/
def sixResult (s : Str) : Option (PDate × Str) :=
  match search matchSix s with
  | some (i, len, d, mo, y) =>
    match mkDate y mo d with
    | some dt => some (dt, strip (removeSpan s i len))
    | none => none
  | none => none

def dotResult (s : Str) : Option (PDate × Str) :=
  match search (matchDMYSep '.') s with
  | some (i, len, d, mo, y) =>
    match mkDate (fixYear y) mo d with
    | some dt => some (dt, strip (removeSpan s i len))
    | none => none
  | none => none

def slashResult (s : Str) : Option (PDate × Str) :=
  match search (matchDMYSep '/') s with
  | some (i, len, mo, d, y) =>
    match mkDate (fixYear y) mo d with
    | some dt => some (dt, strip (removeSpan s i len))
    | none => none
  | none => none

def extractDateSix (s : Str) : Option PDate × Str :=
  match sixResult s with
  | some (dt, rem) => (some dt, rem)
  | none => (none, s)

def extractDateSlash (s : Str) : Option PDate × Str :=
  match slashResult s with
  | some (dt, rem) => (some dt, rem)
  | none => extractDateSix s

def extractDate (s : Str) : Option PDate × Str :=
  match dotResult s with
  | some (dt, rem) => (some dt, rem)
  | none => extractDateSlash s

/-! Location and direction extraction. -/

def isDashSpace (c : Char) : Bool := c = '-' || isSpaceC c

/-- Match a greedy star over dash-or-space, then the location literal,
then the lookahead requiring whitespace or end; backtracks the star. -/
def starLocA (loc : Str) (t : Str) : Option Nat :=
  let r := countLeading isDashSpace t
  (List.range (r + 1)).reverse.findSome? fun k =>
    let u := t.drop k
    if startsCI loc u then
      match (u.drop loc.length).head? with
      | none => some (k + loc.length)
      | some c => if isSpaceC c then some (k + loc.length) else none
    else none

/-- Scanner for the short non-ASCII preposition pattern: start or a
whitespace character, the preposition, optional dashes or spaces, the
location, then a whitespace-or-end lookahead. -/
def matchLocA (prep loc : Str) (prev : Option Char) (s : Str) : Option Nat :=
  let b1 : Option Nat :=
    if prev = none && startsCI prep s then
      (starLocA loc (s.drop prep.length)).map (fun n => prep.length + n)
    else none
  match b1 with
  | some n => some n
  | none =>
    match s with
    | c :: cs =>
      if isSpaceC c && startsCI prep cs then
        (starLocA loc (cs.drop prep.length)).map (fun n => 1 + prep.length + n)
      else none
    | [] => none

/-- Match the location literal followed by a word boundary. -/
def locEnd (loc : Str) (t : Str) : Option Nat :=
  if startsCI loc t && bnd ((t.take loc.length).getLast?) ((t.drop loc.length).head?) then
    some loc.length
  else none

/-- Match the optional intervening article with following whitespace (the
greedy option is tried first), then the location with end boundary. -/
def theLoc (loc : Str) (t : Str) : Option Nat :=
  let withThe : Option Nat :=
    if startsCI sThe t then
      let t2 := t.drop 3
      let r := countLeading isSpaceC t2
      (List.range r).reverse.findSome? fun k0 =>
        (locEnd loc (t2.drop (k0 + 1))).map (fun n => 3 + (k0 + 1) + n)
    else none
  match withThe with
  | some n => some n
  | none => locEnd loc t

/-- Scanner for the long or ASCII preposition pattern: word boundary,
preposition, whitespace, optional article, location, word boundary. -/
def matchLocB (prep loc : Str) (prev : Option Char) (s : Str) : Option Nat :=
  if bnd prev s.head? && startsCI prep s then
    let t := s.drop prep.length
    let r := countLeading isSpaceC t
    (List.range r).reverse.findSome? fun k0 =>
      (theLoc loc (t.drop (k0 + 1))).map (fun n => prep.length + (k0 + 1) + n)
  else none

def shortNonAscii (w : Str) : Bool := w.length ≤ 2 && !isAsciiS w

def locPattern (prep loc : Str) (prev : Option Char) (s : Str) : Option Nat :=
  if shortNonAscii prep then matchLocA prep loc prev s else matchLocB prep loc prev s

/-- Removal of a location match: the source advances the start past one
captured leading whitespace character before splicing the text. -/
def applyLocMatch (s : Str) (i len : Nat) : Str :=
  let start :=
    match (s.drop i).head? with
    | some c => if isSpaceC c then i + 1 else i
    | none => i
  strip (s.take start ++ s.drop (i + len))

def allLocsBase (cfg : Config) : List Str :=
  let ds := defaultSourceOf cfg
  cfg.locations ++ (if memS ds cfg.locations then [] else [ds])

/-- Expansion of the location list by alias keys whose target is a known
location; the membership test for the target runs against the growing
list, exactly as the source mutates its list inside the loop. -/
def locAliasFold (cfg : Config) : List (Str × Str) × List Str :=
  let all0 := allLocsBase cfg
  let locSet := all0.map lowerS
  cfg.aliases.foldl
    (fun acc p =>
      if memS p.2 acc.2 || memS (lowerS p.2) locSet then
        (acc.1 ++ [p], if memS p.1 acc.2 then acc.2 else acc.2 ++ [p.1])
      else acc)
    ([], all0)

def extractLocation (fz : Fuzzy) (cfg : Config) (s : Str) : Option (Str × Str) × Str :=
  let (locAliasMap, allLocs) := locAliasFold cfg
  let prepCfg := cfg.prepositions.getD defaultPreps
  let hit := (sortLenDesc allLocs).findSome? fun loc =>
    prepCfg.findSome? fun dp =>
      (sortLenDesc dp.2).findSome? fun prep =>
        (search (locPattern prep loc) s).map fun m => (loc, dp.1, m.1, m.2)
  match hit with
  | some (loc, dir, i, len) =>
    (some ((lookupA loc locAliasMap).getD loc, dir), applyLocMatch s i len)
  | none =>
    let multi := allLocs.filter (fun l => l.length > 2)
    if multi ≠ [] then
      let words := splitWS s
      let res := (List.range words.length).findSome? fun iw =>
        (words.get? iw).bind fun w0 =>
          let w := strip w0
          if w = [] || w.length ≤ 2 then none
          else
            let cutoff : Rat := if w.length ≤ 4 then (17 : Rat)/20 else (3 : Rat)/4
            (fz (lowerS w) (multi.map lowerS) cutoff).bind fun m =>
              multi.findSome? fun loc =>
                if lowerS loc = m then
                  some ((lookupA loc locAliasMap).getD loc,
                    words.take iw ++ words.drop (iw + 1))
                else none
      match res with
      | some (canonical, restWords) => (some (canonical, sTo), strip (joinSpace restWords))
      | none => (none, s)
    else (none, s)

/-! Verb and transaction type extraction. -/

/-- Literal match where an underscore in the pattern stands for one
space, underscore or dash, and other characters compare case
insensitively. -/
def ttLitMatch : Str → Str → Bool
  | [], _ => true
  | _ :: _, [] => false
  | p :: ps, c :: cs =>
    (if p = '_' then isSpaceC c || c = '_' || c = '-' else eqCI p c) && ttLitMatch ps cs

def leftOkA (prev : Option Char) : Bool :=
  match prev with
  | none => true
  | some c => isSpaceC c

def rightOkA (next : Option Char) : Bool :=
  match next with
  | none => true
  | some c => isSpaceC c

/-- Scanner for a transaction type name with separator-tolerant literal
and the boundary lookarounds of the source pattern. -/
def matchTT (tt : Str) (prev : Option Char) (s : Str) : Option Nat :=
  if ttLitMatch tt s then
    let lastC := (s.take tt.length).getLast?
    let nextC := (s.drop tt.length).head?
    if shortNonAscii tt then
      if leftOkA prev && rightOkA nextC then some tt.length else none
    else
      if (leftOkA prev || bnd prev s.head?) && (rightOkA nextC || bnd lastC nextC) then
        some tt.length
      else none
  else none

/-- Scanner for a verb delimited by word boundaries on both sides. -/
def matchWordB (v : Str) (prev : Option Char) (s : Str) : Option Nat :=
  if bnd prev s.head? && startsCI v s
      && bnd ((s.take v.length).getLast?) ((s.drop v.length).head?) then
    some v.length
  else none

def ttSetOf (cfg : Config) : List Str := cfg.transaction_types.map lowerS

/-- The trigger map for the fuzzy verb fallback, with dict insertion
semantics: verbs, then type names, then aliases of types. -/
def allVerbsOf (cfg : Config) : List (Str × Str) :=
  let base := cfg.action_verbs.foldl
    (fun acc p => p.2.foldl (fun a v => insertOver a (lowerS v) p.1) acc) []
  let base2 := cfg.transaction_types.foldl (fun a tt => insertOver a (lowerS tt) tt) base
  cfg.aliases.foldl
    (fun a p => if memS (lowerS p.2) (ttSetOf cfg) then insertOver a (lowerS p.1) p.2 else a)
    base2

/-- The single-word fuzzy scan shared by the verb fallback: the first
word longer than two characters for which the matcher returns a
candidate, with the length-scaled cutoff. -/
def fuzzyWordHit (fz : Fuzzy) (cands : List Str) (words : List Str) : Option (Str × Nat) :=
  (List.range words.length).findSome? fun iw =>
    (words.get? iw).bind fun w0 =>
      if strip w0 = [] || (strip w0).length ≤ 2 then none
      else
        (fz (lowerS (strip w0)) cands
          (if (strip w0).length ≤ 4 then (17 : Rat)/20 else (3 : Rat)/4)).map fun m => (m, iw)

def extractVerb (fz : Fuzzy) (cfg : Config) (s : Str) : Exc (Option Str × Str) :=
  match cfg.action_verbs.findSome? fun p =>
      (sortLenDesc p.2).findSome? fun verb =>
        (search (matchWordB verb) s).map fun m => (p.1, m.1, m.2) with
  | some (tt, i, len) => .ok (some tt, strip (removeSpan s i len))
  | none =>
  match (sortLenDesc cfg.transaction_types).findSome? fun tt =>
      (search (matchTT tt) s).map fun m => (tt, m.1, m.2) with
  | some (tt, i, len) => .ok (some tt, strip (removeSpan s i len))
  | none =>
  match (sortLenDescBy (fun p => p.1.length) cfg.aliases).findSome? fun p =>
      if memS (lowerS p.2) (ttSetOf cfg) then
        (search (matchTT p.1) s).map fun m => (p.2, m.1, m.2)
      else none with
  | some (tt, i, len) => .ok (some tt, strip (removeSpan s i len))
  | none =>
  if allVerbsOf cfg ≠ [] then
    match fuzzyWordHit fz ((allVerbsOf cfg).map Prod.fst) (splitWS s) with
    | some (m, iw) =>
      match lookupA m (allVerbsOf cfg) with
      | some tt =>
        .ok (some tt, strip (joinSpace ((splitWS s).take iw ++ (splitWS s).drop (iw + 1))))
      | none => .error errKey
    | none => .ok (none, s)
  else .ok (none, s)

/-! Supplier extraction. -/

/-- Tail of the short supplier pattern after the from-word: a greedy
dash-or-space star, a lazy nonempty capture, trailing whitespace. -/
def supplierTailShort (t : Str) : Option Str :=
  let r := countLeading isDashSpace t
  if t.length > r then some (strip (t.drop r))
  else if r ≥ 1 then some (strip (t.drop (r - 1)))
  else none

/-- Tail of the long supplier pattern: at least one whitespace character,
then a lazy nonempty capture and trailing whitespace. -/
def supplierTailLong (t : Str) : Option Str :=
  let sp := countLeading isSpaceC t
  if sp ≥ 1 && t.length ≥ 2 then some (strip t) else none

def matchSupplierWord (w : Str) (prev : Option Char) (s : Str) : Option Str :=
  if shortNonAscii w then
    if startsCI w s then supplierTailShort (s.drop w.length) else none
  else
    if bnd prev s.head? && startsCI w s then supplierTailLong (s.drop w.length) else none

def extractSupplier (cfg : Config) (s : Str) : Option Str × Str :=
  let allLocsL := (cfg.locations.map lowerS) ++ [lowerS (defaultSourceOf cfg)]
  let fromWords := cfg.from_words.getD [sFrom]
  let res := fromWords.findSome? fun w =>
    match search (matchSupplierWord w) s with
    | some (i, supplier) =>
      if memS (lowerS supplier) allLocsL then none
      else some (supplier, strip (s.take i))
    | none => none
  match res with
  | some (supplier, rem) => (some supplier, rem)
  | none => (none, s)

/-! Containers. -/

/-- The deduplicated container key set from the unit conversion table,
iterated in insertion order (modelling the Python set of those keys with
a deterministic order). -/
def getAllContainers (cfg : Config) : List Str :=
  cfg.unit_conversions.foldl
    (fun acc p => p.2.foldl
      (fun a kv =>
        if kv.1 = sBaseUnit then a
        else if memS kv.1 a then a else a ++ [kv.1])
      acc)
    []

/-- Containers expanded with alias keys whose target is a container,
paired with the alias resolution map. -/
def containersWithAliases (cfg : Config) : List (Str × Str) × List Str :=
  let conts := getAllContainers cfg
  let contLowerSet := conts.map lowerS
  cfg.aliases.foldl
    (fun acc p =>
      if memS (lowerS p.2) contLowerSet then
        (acc.1 ++ [p], if memS p.1 acc.2 then acc.2 else acc.2 ++ [p.1])
      else acc)
    ([], conts)

def allContainerNames (cfg : Config) : List Str := (containersWithAliases cfg).2

def endsES (w : Str) : Bool :=
  match w.reverse with
  | [] => false
  | c :: rest => c = 'x' || c = 's' || (c = 'h' && (rest.head? = some 's' || rest.head? = some 'c'))

/-- Variants of a container name: itself and, for an ASCII last word, an
English plural. An empty or all-whitespace container name makes the
source index an empty word list, which raises. -/
def containerVariants (c : Str) : Exc (List Str) :=
  let ws := splitWS c
  match ws.getLast? with
  | none => .error errIndex
  | some last =>
    if isAsciiS last then
      let suffix := if endsES last then sEs else sS
      .ok [c, joinSpace (ws.dropLast ++ [last ++ suffix])]
    else .ok [c]

/-- Anchored container variant match at the start of the stripped text,
with end word boundary. -/
def matchVariantAnchored (v : Str) (s : Str) : Option Str :=
  let st := strip s
  if startsCI v st && bnd ((st.take v.length).getLast?) ((st.drop v.length).head?) then
    some (strip (st.drop v.length))
  else none

/-- Unanchored boundary-delimited container variant search over the
unstripped text. -/
def matchVariantSearch (v : Str) (s : Str) : Option Str :=
  match search (matchWordB v) s with
  | some (i, len) => some (strip (removeSpan s i len))
  | none => none

def findContM (amap : List (Str × Str)) : List Str → Str → Exc (Option Str × Str)
  | [], s => .ok (none, s)
  | c :: cs, s => do
    let vars ← containerVariants c
    let hit := vars.findSome? fun v =>
      match matchVariantAnchored v s with
      | some rem => some rem
      | none => matchVariantSearch v s
    match hit with
    | some rem => .ok (some ((lookupA c amap).getD c), rem)
    | none => findContM amap cs s

def extractContainer (cfg : Config) (s : Str) : Exc (Option Str × Str) :=
  let (amap, conts) := containersWithAliases cfg
  findContM amap (sortLenDesc conts) s

def convertContainer (item cont : Str) (q : Rat) (cfg : Config) : Option Rat :=
  match lookupA item cfg.unit_conversions with
  | none => none
  | some convs => (lookupA cont convs).map (fun f => q * f)

/-! Quantity extraction. -/

/-- Scanner for the half-a pattern: boundary, the word half, whitespace,
the article, whitespace. -/
def matchHalfA (prev : Option Char) (s : Str) : Option Nat :=
  if bnd prev s.head? && startsCI sHalf s then
    let t := s.drop 4
    let k1 := countLeading isSpaceC t
    if k1 ≥ 1 then
      let t1 := t.drop k1
      if startsCI sA t1 then
        let t2 := t1.drop 1
        let k2 := countLeading isSpaceC t2
        if k2 ≥ 1 then some (4 + k1 + 1 + k2) else none
      else none
    else none
  else none

/-- Scanner for the multiplication expression: boundary, digits, optional
spaces, one of the three product signs (case sensitive, as the source
pattern has no ignore-case flag), optional spaces, digits, boundary. -/
def matchMult (prev : Option Char) (s : Str) : Option (Nat × Nat × Nat) :=
  if bnd prev s.head? then
    let r1 := digitsRun s
    if r1 = 0 then none
    else
      let a := natOfDigits (s.take r1)
      let t := s.drop r1
      let k1 := countLeading isSpaceC t
      let t1 := t.drop k1
      match t1.head? with
      | some c =>
        if c = 'x' || c = '×' || c = '*' then
          let t2 := t1.drop 1
          let k2 := countLeading isSpaceC t2
          let t3 := t2.drop k2
          let r2 := digitsRun t3
          if r2 ≥ 1 && !isWordO ((t3.drop r2).head?) then
            some (r1 + k1 + 1 + k2 + r2, a, natOfDigits (t3.take r2))
          else none
        else none
      | none => none
  else none

/-- Scanner for a bare integer between word boundaries. -/
def matchNum (prev : Option Char) (s : Str) : Option (Nat × Nat) :=
  if bnd prev s.head? then
    let r := digitsRun s
    if r ≥ 1 && !isWordO ((s.drop r).head?) then some (r, natOfDigits (s.take r))
    else none
  else none

def extractQtyNum (cfg : Config) (s : Str) : Exc (Option Rat × Option Str × Str) := do
  match search matchMult s with
  | some (i, len, a, b) =>
    let (cont, rem2) ← extractContainer cfg (strip (removeSpan s i len))
    .ok (some ((a * b : Nat) : Rat), cont, rem2)
  | none =>
    match search matchNum s with
    | some (i, len, n) =>
      let (cont, rem2) ← extractContainer cfg (strip (removeSpan s i len))
      .ok (some ((n : Nat) : Rat), cont, rem2)
    | none => .ok (none, none, s)

def extractQty (cfg : Config) (s : Str) : Exc (Option Rat × Option Str × Str) := do
  match search matchHalfA s with
  | some (i, len) =>
    let (cont, afterCont) ← extractContainer cfg (s.drop (i + len))
    if truthyS cont then
      .ok (some ((1 : Rat)/2), cont, strip (s.take i ++ ' ' :: afterCont))
    else extractQtyNum cfg s
  | none => extractQtyNum cfg s

/-! Filler removal. -/

def fillerOf (cfg : Config) : List Str := cfg.filler_words.getD defaultFiller

/-- Removal of every boundary-delimited occurrence of a word, scanning
left to right over the original text; fuel equals the text length, which
each step strictly consumes. This is the effect of substituting the
pattern backslash-b, escaped word, backslash-b with the empty string. -/
def removeWordGo (w : Str) : Nat → Option Char → Str → Str
  | 0, _, s => s
  | _ + 1, _, [] => []
  | fuel + 1, prev, c :: cs =>
    if w ≠ [] && bnd prev (some c) && startsCI w (c :: cs)
        && bnd (((c :: cs).take w.length).getLast?) (((c :: cs).drop w.length).head?) then
      removeWordGo w fuel (((c :: cs).take w.length).getLast?) ((c :: cs).drop w.length)
    else c :: removeWordGo w fuel (some c) cs

def removeWord (w : Str) (s : Str) : Str := removeWordGo w s.length none s

/-- The source wraps a filler entry in word boundaries after escaping it
unless the entry starts with a backslash, in which case the entry is fed
to the regex engine verbatim. The raw entries the repository uses are all
boundary-wrapped literal words; this recogniser accepts exactly that
fragment: backslash-b, a nonempty run of word characters or apostrophes
(both literal to the engine), backslash-b. -/
def rawWordOf (p : Str) : Option Str :=
  match p with
  | '\\' :: 'b' :: rest =>
    if rest.length ≥ 3 && decide (rest.drop (rest.length - 2) = ['\\', 'b'])
        && (rest.take (rest.length - 2)).all (fun c => isWordC c || c = '\'') then
      some (rest.take (rest.length - 2))
    else none
  | _ => none

def fillerIsRaw : Str → Bool
  | '\\' :: _ => true
  | _ => false

/-- One pass of the filler loop body: a plain entry is removed as an
escaped boundary-wrapped word; a raw entry inside the modelled fragment
removes its literal word, and a raw entry outside the fragment is outside
the modelled regex language, where an invalid pattern such as a lone
backslash raises the engine error. -/
def fillerStep (acc : Str) (p : Str) : Exc Str :=
  if fillerIsRaw p then
    match rawWordOf p with
    | some w => .ok (removeWord w acc)
    | none => .error errRe
  else .ok (removeWord p acc)

def removeFillerGo : List Str → Str → Exc Str
  | [], acc => .ok acc
  | p :: ps, acc => fillerStep acc p >>= fun acc2 => removeFillerGo ps acc2

def removeFiller (cfg : Config) (s : Str) : Exc Str :=
  (removeFillerGo (fillerOf cfg) s).map (fun t => strip (collapseWS t))

/-! Item matching. -/

def rstripS (s : Str) : Str := (s.reverse.dropWhile (fun c => c = 's')).reverse

def resolveMatch (m : Str) (cfg : Config) : Option Str :=
  match cfg.aliases.findSome? (fun p => if lowerS p.1 = m then some p.2 else none) with
  | some t => some t
  | none => cfg.items.findSome? (fun i => if lowerS i = m then some i else none)

def allTargetsOf (cfg : Config) : List Str :=
  cfg.items.map lowerS ++ cfg.aliases.map (fun p => lowerS p.1)

def allNamesOf (cfg : Config) : List (Str × Str) :=
  cfg.items.foldl (fun a i => insertOver a (lowerS i) i) []

def allAliasesOf (cfg : Config) : List (Str × Str) :=
  cfg.aliases.foldl (fun a p => insertOver a (lowerS p.1) p.1) []

/-- Monadic first-success scan. -/
def findSomeM {α β : Type} (f : α → Exc (Option β)) : List α → Exc (Option β)
  | [] => .ok none
  | a :: rest => do
    match ← f a with
    | some b => .ok (some b)
    | none => findSomeM f rest

/-- One span attempt of the word-span scan: exact alias (a chained dict
access, the inner one a modelled key error), exact item, then fuzzy. -/
def spanTry (fz : Fuzzy) (cfg : Config) (span : Str) : Exc (Option (Option Str × Str)) :=
  match lookupA span (allAliasesOf cfg) with
  | some origKey =>
    match lookupA origKey cfg.aliases with
    | some tgt => .ok (some (some tgt, span))
    | none => .error errKey
  | none =>
    match lookupA span (allNamesOf cfg) with
    | some item => .ok (some (some item, span))
    | none =>
      match fz span (allTargetsOf cfg)
          (if span.length ≤ 4 then (4 : Rat)/5 else (3 : Rat)/5) with
      | some m => .ok (some (resolveMatch m cfg, span))
      | none => .ok none

/-- Body of the item matcher, over the stripped text and its lowered
form; the cascade of the source with its locals inlined. -/
def matchItemBody (fz : Fuzzy) (cfg : Config) (textClean tl : Str) :
    Exc (Option Str × Option Str) :=
  match (sortLenDesc cfg.items).findSome?
      (fun item => if isSubCS (lowerS item) tl then some item else none) with
  | some item => .ok (some item, some item)
  | none =>
  match (sortLenDescBy (fun p => p.1.length) cfg.aliases).findSome?
      (fun p => if isSubCS (lowerS p.1) tl then some (p.2, p.1) else none) with
  | some (tgt, ak) => .ok (some tgt, some ak)
  | none =>
  match (sortLenDesc cfg.items).findSome? (fun item =>
      let il := lowerS item
      let tlr := rstripS tl
      if tlr = il || tlr = rstripS il then some item else none) with
  | some item => .ok (some item, some textClean)
  | none =>
  match (sortLenDesc cfg.items).findSome? (fun item =>
      if startsCS tl (lowerS item) then some item else none) with
  | some item => .ok (some item, some textClean)
  | none =>
  match fz tl (allTargetsOf cfg) (if tl.length ≤ 4 then (4 : Rat)/5 else (3 : Rat)/5) with
  | some m => .ok (resolveMatch m cfg, some textClean)
  | none => do
    let hit ← findSomeM
      (fun spanLen => findSomeM
        (fun start => spanTry fz cfg (joinSpace (((splitWS tl).drop start).take spanLen)))
        (List.range ((splitWS tl).length - spanLen + 1)))
      ((List.range (min (splitWS tl).length 4)).reverse.map (fun k => k + 1))
    match hit with
    | some (itemOpt, span) => .ok (itemOpt, some span)
    | none => .ok (none, none)

def matchItem (fz : Fuzzy) (cfg : Config) (s : Str) : Exc (Option Str × Option Str) :=
  if strip s = [] then .ok (none, none)
  else matchItemBody fz cfg (strip s) (lowerS (strip s))

/-! Line parsing. -/

/-- The leading sign strip: if an optional whitespace run is followed by
one plus or minus, the run, the sign and any whitespace after it are
removed; otherwise the text is unchanged; either way it is stripped. -/
def stripSign (s : Str) : Str :=
  match s.dropWhile (fun c => isSpaceC c) with
  | c :: cs =>
    if c = '+' || c = '-' then strip (cs.dropWhile (fun d => isSpaceC d)) else strip s
  | [] => strip s

/-- Anchored match of the partial-withdrawal pattern, returning the first
number, the second number as its literal digits and the greedy tail. -/
def matchTook (s : Str) : Option (Nat × Str × Str) :=
  if startsCI sTook s then
    let t := s.drop 4
    let k1 := countLeading isSpaceC t
    if k1 = 0 then none
    else
      let t1 := t.drop k1
      let r1 := digitsRun t1
      if r1 = 0 then none
      else
        let x := natOfDigits (t1.take r1)
        let t2 := t1.drop r1
        let k2 := countLeading isSpaceC t2
        if k2 = 0 || !startsCI sOut (t2.drop k2) then none
        else
          let t4 := (t2.drop k2).drop 3
          let k3 := countLeading isSpaceC t4
          if k3 = 0 || !startsCI sOf (t4.drop k3) then none
          else
            let t6 := (t4.drop k3).drop 2
            let k4 := countLeading isSpaceC t6
            if k4 = 0 then none
            else
              let t7 := t6.drop k4
              let r2 := digitsRun t7
              if r2 = 0 then none
              else
                let yds := t7.take r2
                let t8 := t7.drop r2
                let k5 := countLeading isSpaceC t8
                if k5 = 0 then none
                else if t8.length > k5 then some (x, yds, t8.drop k5)
                else if k5 ≥ 2 then some (x, yds, t8.drop (k5 - 1))
                else none
  else none

/-- The bare integers of a text in order, the findall of the bounded
digit-run regex. -/
def findNumsGo : Nat → Option Char → Str → List Str
  | 0, _, _ => []
  | _ + 1, _, [] => []
  | fuel + 1, prev, c :: cs =>
    let r := digitsRun (c :: cs)
    if !isWordO prev && r ≥ 1 && !isWordO (((c :: cs).drop r).head?) then
      ((c :: cs).take r) :: findNumsGo fuel (((c :: cs).take r).getLast?) ((c :: cs).drop r)
    else findNumsGo fuel (some c) cs

def findAllNums (s : Str) : List Str := findNumsGo s.length none s

/-- The multi-number disambiguation retry loop. -/
def disambig (fz : Fuzzy) (cfg : Config) (r : Rec) (before : Str) : List Str → Exc Rec
  | [] => .ok r
  | num :: rest =>
    if r.qty = some ((natOfDigits num : Nat) : Rat) then disambig fz cfg r before rest
    else do
      let trialText ← removeFiller cfg (strip (replaceFirst num before))
      let (trialCont, trialAfter) ← extractContainer cfg trialText
      let (trialItem, trialRaw) ←
        matchItem fz cfg (if truthyS trialCont then trialAfter else trialText)
      if truthyS trialItem then
        .ok { r with
              qty := some ((natOfDigits num : Nat) : Rat), has_qty := true,
              item := trialItem, item_raw := trialRaw, has_item := true,
              unmatched := none,
              container := if truthyS trialCont then trialCont else r.container }
      else disambig fz cfg r before rest

def finishRec (fz : Fuzzy) (cfg : Config) (rem4 : Str) (r1 : Rec) : Exc Rec :=
  (if !r1.has_item && r1.has_qty && (findAllNums rem4).length > 1 then
      disambig fz cfg r1 rem4 (findAllNums rem4)
    else pure r1)
  >>= fun r2 =>
  let r3 :=
    if truthyS r2.item && truthyS r2.container && r2.qty.isSome then
      match r2.item, r2.container, r2.qty with
      | some it, some ct, some q =>
        match convertContainer it ct q cfg with
        | some conv => { r2 with qty := some conv, container := none }
        | none => r2
      | _, _, _ => r2
    else r2
  .ok r3

def parseLineCore (fz : Fuzzy) (cfg : Config) (remaining : Str) : Exc Rec := do
  match matchTook remaining with
  | some (x, yds, rest) => do
    let (item, raw) ← matchItem fz cfg (strip rest)
    let r0 : Rec := { qty := some ((x : Nat) : Rat), has_qty := true,
                      notes_extra := some (sHad ++ yds ++ sTotal) }
    if truthyS item then
      .ok { r0 with item := item, item_raw := raw, has_item := true }
    else .ok r0
  | none =>
    let (dateVal, rem1) := extractDate remaining
    let (locPair, rem2) := extractLocation fz cfg rem1
    extractVerb fz cfg rem2 >>= fun (transType, rem3) =>
    let (supplier, rem4) :=
      if (cfg.from_words.getD [sFrom]).any (fun fw => isSubCS (lowerS fw) (lowerS rem3)) then
        extractSupplier cfg rem3
      else (none, rem3)
    extractQty cfg rem4 >>= fun (qty, cont, rem5) =>
    removeFiller cfg rem5 >>= fun rem5c =>
    (if strip rem5c ≠ [] then
        matchItem fz cfg rem5c >>= fun (item, raw) =>
        if truthyS item then pure (item, raw, (none : Option Str))
        else pure ((none : Option Str), (none : Option Str), some (strip rem5c))
      else pure ((none : Option Str), (none : Option Str), (none : Option Str)))
    >>= fun (item1, raw1, unmatched1) =>
    let r1 : Rec :=
      { qty := qty, has_qty := qty.isSome,
        container := if truthyS cont then cont else none,
        trans_type := if truthyS transType then transType else none,
        location :=
          (match locPair with
           | some (l, _) => if l ≠ [] then some l else none
           | none => none),
        direction :=
          (match locPair with
           | some (l, d) => if l ≠ [] then some d else none
           | none => none),
        pdate := dateVal,
        notes_extra :=
          (match supplier with
           | some sp => if sp ≠ [] then some (sFromSp ++ sp) else none
           | none => none),
        item := item1, item_raw := raw1, has_item := truthyS item1,
        unmatched := unmatched1 }
    finishRec fz cfg rem4 r1

def parseLine (fz : Fuzzy) (text : Str) (cfg : Config) : Exc Rec :=
  (parseLineCore fz cfg (stripSign text)).map (fun r => { r with raw := text })

/-! Line merging. -/

/-- Conversion re-attempt after a merge; the quantity is present for
every record reaching this point (the has-quantity flag is set only with
a quantity), so the none case is never taken from the pipeline. -/
def applyConv (r : Rec) (cfg : Config) : Rec :=
  if truthyS r.container && truthyS r.item then
    match r.item, r.container, r.qty with
    | some it, some ct, some q =>
      match convertContainer it ct q cfg with
      | some conv => { r with qty := some conv, container := none }
      | none => r
    | _, _, _ => r
  else r

def mergeGo (cfg : Config) : Nat → List Rec → List Rec → List Rec
  | 0, acc, rest => acc.reverse ++ rest
  | _ + 1, acc, [] => acc.reverse
  | fuel + 1, acc, cur :: rest =>
    let ruleA :=
      if cur.has_qty && !cur.has_item && !truthyS cur.unmatched then
        match rest with
        | nxt :: rest2 =>
          if nxt.has_item && !nxt.has_qty then some (nxt, rest2) else none
        | [] => none
      else none
    match ruleA with
    | some (nxt, rest2) =>
      let combined := applyConv
        { cur with
          item := nxt.item, item_raw := nxt.item_raw, has_item := true,
          raw := cur.raw ++ '\n' :: nxt.raw } cfg
      mergeGo cfg fuel (combined :: acc) rest2
    | none =>
      if !cur.has_qty && !cur.has_item && (truthyS cur.trans_type || truthyS cur.notes_extra)
          && !truthyS cur.location then
        match acc with
        | prev :: accRest =>
          let prev1 :=
            if truthyS cur.trans_type && !truthyS prev.trans_type then
              { prev with trans_type := cur.trans_type }
            else prev
          let prev2 :=
            if truthyS cur.notes_extra then { prev1 with notes_extra := cur.notes_extra }
            else prev1
          mergeGo cfg fuel (prev2 :: accRest) rest
        | [] => mergeGo cfg fuel (cur :: acc) rest
      else mergeGo cfg fuel (cur :: acc) rest

def mergeLines (parsed : List Rec) (cfg : Config) : List Rec :=
  if parsed = [] then [] else mergeGo cfg parsed.length [] parsed

/-! Context broadcasting. -/

def bcForward (ctxLoc ctxDir ctxType : Option Str) (ctxDate : Option PDate) :
    List Rec → List Rec
  | [] => []
  | item :: rest =>
    let cl := if truthyS item.location then item.location else ctxLoc
    let cd := if truthyS item.location then item.direction else ctxDir
    let ct := if truthyS item.trans_type then item.trans_type else ctxType
    let cdt := if item.pdate.isSome then item.pdate else ctxDate
    let item1 :=
      if !truthyS item.location && truthyS cl then
        { item with location := cl, direction := cd }
      else item
    let item2 :=
      if !truthyS item1.trans_type && truthyS ct then { item1 with trans_type := ct }
      else item1
    let item3 := if item2.pdate.isNone && cdt.isSome then { item2 with pdate := cdt } else item2
    item3 :: bcForward cl cd ct cdt rest

def lastVals (items : List Rec) : Option Str × Option Str × Option Str × Option PDate :=
  items.foldl
    (fun acc item =>
      let ll := if truthyS item.location then item.location else acc.1
      let ld := if truthyS item.location then item.direction else acc.2.1
      let lt := if truthyS item.trans_type then item.trans_type else acc.2.2.1
      let ldt := if item.pdate.isSome then item.pdate else acc.2.2.2
      (ll, ld, lt, ldt))
    (none, none, none, none)

def bcFill (ll ld lt : Option Str) (ldt : Option PDate) (item : Rec) : Rec :=
  let item1 :=
    if !truthyS item.location && truthyS ll then { item with location := ll, direction := ld }
    else item
  let item2 := if item1.pdate.isNone && ldt.isSome then { item1 with pdate := ldt } else item1
  if !truthyS item2.trans_type && truthyS lt then { item2 with trans_type := lt } else item2

def broadcastContext (items : List Rec) : List Rec :=
  if items = [] then items
  else
    let fwd := bcForward none none none none items
    let (ll, ld, lt, ldt) := lastVals fwd
    fwd.map (bcFill ll ld lt ldt)

/-! Result generation. -/

def alphaCount (s : Str) : Nat :=
  (s.filter (fun c => ('a' ≤ c && c ≤ 'z') || ('A' ≤ c && c ≤ 'Z') || isHebrewC c)).length

/-- The note heuristic: more than thirty percent alphabetic characters.
The source compares a float quotient with the literal 0.3; for any text
of realistic length the comparison agrees exactly with the rational
inequality below, including the boundary case of an exact three-tenths
ratio, where both are false. -/
def isNote (r : Rec) : Bool :=
  if r.raw = [] then false
  else
    let alpha := alphaCount r.raw
    if alpha = 0 then false else 10 * alpha > 3 * r.raw.length

def assignGo (prevDest : Option Str) (prevDate : Option PDate) (batch : Nat) :
    List Rec → List Rec
  | [] => []
  | item :: rest =>
    let dest := item.location
    let dt := item.pdate
    let locChange := dest.isSome && prevDest.isSome && decide (dest ≠ prevDest)
    let dateChange := dt.isSome && prevDate.isSome && decide (dt ≠ prevDate)
    let batch1 :=
      if locChange then batch + 1
      else if dateChange then batch + 1
      else batch
    { item with batch := some batch1 } ::
      assignGo (if dest.isSome then dest else prevDest)
        (if dt.isSome then dt else prevDate) batch1 rest

def assignBatches : List Rec → List Rec
  | [] => []
  | first :: rest =>
    { first with batch := some 1 } :: assignGo first.location first.pdate 1 rest

def nonZeroSumOf (cfg : Config) : List Str := cfg.non_zero_sum_types.getD nonZeroSumDefault

def inNonZero (t : Option Str) (cfg : Config) : Bool :=
  match t with
  | some tt => memS tt (nonZeroSumOf cfg)
  | none => false

def itemToRows (item : Rec) (cfg : Config) (today : PDate) : List Row :=
  let dt := item.pdate.getD today
  let invType := item.item
  let qty := item.qty.getD 1
  let transType := item.trans_type
  let location := item.location
  let batch := item.batch.getD 1
  let notes := item.notes_extra
  let ds := defaultSourceOf cfg
  let pc : Option Str := if truthyS item.container then item.container else none
  let rq : Option Rat := if truthyS item.container then some qty else none
  if inNonZero transType cfg then
    [{ rdate := dt, inv_type := invType, batch := batch, notes := notes,
       pending_container := pc, raw_qty := rq, qty := qty, trans_type := transType,
       vehicle_sub_unit := some (if truthyS location then location.getD [] else ds) }]
  else if truthyS location && location.getD [] ≠ ds then
    let transType :=
      if !truthyS transType then some (cfg.default_transfer_type.getD sW2B) else transType
    let loc := location.getD []
    if item.direction = some sFrom then
      [{ rdate := dt, inv_type := invType, batch := batch, notes := notes,
         pending_container := pc, raw_qty := rq, qty := -(abs qty),
         trans_type := transType, vehicle_sub_unit := some loc },
       { rdate := dt, inv_type := invType, batch := batch, notes := notes,
         pending_container := pc, raw_qty := rq, qty := abs qty,
         trans_type := transType, vehicle_sub_unit := some ds }]
    else
      [{ rdate := dt, inv_type := invType, batch := batch, notes := notes,
         pending_container := pc, raw_qty := rq, qty := -(abs qty),
         trans_type := transType, vehicle_sub_unit := some ds },
       { rdate := dt, inv_type := invType, batch := batch, notes := notes,
         pending_container := pc, raw_qty := rq, qty := abs qty,
         trans_type := transType, vehicle_sub_unit := some loc }]
  else if truthyS location && location.getD [] = ds then
    [{ rdate := dt, inv_type := invType, batch := batch, notes := notes,
       pending_container := pc, raw_qty := rq, qty := abs qty,
       trans_type := transType, vehicle_sub_unit := some ds }]
  else
    [{ rdate := dt, inv_type := invType, batch := batch, notes := notes,
       pending_container := pc, raw_qty := rq, qty := qty,
       trans_type := transType, vehicle_sub_unit := none }]

def isContextRec (r : Rec) : Bool :=
  (truthyS r.trans_type && (truthyS r.location || r.pdate.isSome))
  || (truthyS r.location && r.pdate.isSome)
  || (truthyS r.location && !truthyS r.unmatched)

def classifyGo : List Rec → List Rec × List Str × List Str
  | [] => ([], [], [])
  | r :: rest =>
    let (t, n, u) := classifyGo rest
    if r.has_item then (r :: t, n, u)
    else if r.has_qty && !r.has_item then (t, n, r.raw :: u)
    else if isContextRec r then (t, n, u)
    else if isNote r then (t, r.raw :: n, u)
    else (t, n, r.raw :: u)

def generateResult (items : List Rec) (cfg : Config) (today : PDate) : ParseResult :=
  let (txn, notes, unp) := classifyGo items
  { rows := ((assignBatches txn).map (fun r => itemToRows r cfg today)).flatten,
    notes := notes, unparseable := unp }

/-! Preprocessing and the top level entry point. -/

/-- Removal of every occurrence of a literal, case insensitively, in one
left-to-right pass over the original text, as one substitution call. -/
def removeSubCIGo (pat : Str) : Nat → Str → Str
  | 0, s => s
  | _ + 1, [] => []
  | fuel + 1, c :: cs =>
    if pat ≠ [] && startsCI pat (c :: cs) then
      removeSubCIGo pat fuel ((c :: cs).drop pat.length)
    else c :: removeSubCIGo pat fuel cs

def removeSubCI (pat s : Str) : Str := removeSubCIGo pat s.length s

def stripMetadata (s : Str) : Str :=
  strip (removeSubCI marker2 (removeSubCI marker1 s))

/-- Effectful map, the list comprehension over the line parser: the first
raised exception propagates. -/
def mapExc {α β : Type} (f : α → Exc β) : List α → Exc (List β)
  | [] => .ok []
  | a :: rest => do
    let b ← f a
    let bs ← mapExc f rest
    .ok (b :: bs)

def parse (fz : Fuzzy) (text : Str) (cfg : Config) (today : PDate) : Exc ParseResult := do
  let t := stripMetadata text
  let lines := ((splitNL t).map strip).filter (fun l => l ≠ [])
  let parsed ← mapExc (fun l => parseLine fz l cfg) lines
  .ok (generateResult (broadcastContext (mergeLines parsed cfg)) cfg today)

/-! Definitions supporting the claims. -/

/-- The configs for which the container variant computation cannot raise:
every container name (conversion keys and their aliases) splits into at
least one word. -/
def GoodContainers (cfg : Config) : Prop :=
  ∀ c ∈ allContainerNames cfg, splitWS c ≠ []

/-- An entry of the filler list the removal handles without an engine
error: either plain (escaped and boundary-wrapped) or a raw pattern of
the modelled boundary-wrapped-word fragment. -/
def fillerOk (p : Str) : Bool := !fillerIsRaw p || (rawWordOf p).isSome

/-- Every filler entry of the configuration is handled without an engine
error; the default list and the repository configurations satisfy this,
while an invalid raw pattern such as a lone backslash does not. -/
def GoodFillers (cfg : Config) : Prop := ∀ p ∈ fillerOf cfg, fillerOk p = true

/-- The five possible fates of a record in the result generator, read off
the branch structure of the source. -/
inductive Fate where
  | txn
  | qtyOnly
  | context
  | note
  | junk
deriving DecidableEq

def fate (r : Rec) : Fate :=
  if r.has_item then .txn
  else if r.has_qty && !r.has_item then .qtyOnly
  else if isContextRec r then .context
  else if isNote r then .note
  else .junk

/-- The last non-null value of a field among the first i records, the
running previous value of the batch assigner before record i. -/
def prevAt {α : Type} (proj : Rec → Option α) (items : List Rec) (i : Nat) : Option α :=
  ((items.take i).filterMap proj).getLast?

/-- Generalisation of prevAt with an inherited default for proofs about
the assigner started in an arbitrary state. -/
def prevG {α : Type} (dflt : Option α) (proj : Rec → Option α) (items : List Rec) (i : Nat) :
    Option α :=
  match ((items.take i).filterMap proj).getLast? with
  | some v => some v
  | none => dflt

/-- The batch increment test of the assigner for one record against the
previous non-null location and date: a location change, or, only when the
location branch did not fire, a date change; a null side never fires a
branch. -/
def stepB (pl : Option Str) (pd : Option PDate) (r : Rec) : Bool :=
  (r.location.isSome && pl.isSome && decide (r.location ≠ pl))
  || (!(r.location.isSome && pl.isSome && decide (r.location ≠ pl))
      && (r.pdate.isSome && pd.isSome && decide (r.pdate ≠ pd)))

/-- The increment condition of the claim at position i of the record
sequence, phrased against the last non-null fields of the prefix. -/
def incrCond (items : List Rec) (i : Nat) : Bool :=
  match items.get? i with
  | none => false
  | some cur => stepB (prevAt Rec.location items i) (prevAt Rec.pdate items i) cur

/-- Increment condition generalised to an inherited starting state. -/
def stepG (pl : Option Str) (pd : Option PDate) (items : List Rec) (j : Nat) : Bool :=
  match items.get? j with
  | none => false
  | some cur => stepB (prevG pl Rec.location items j) (prevG pd Rec.pdate items j) cur

/-- The batch number assigned at position i, zero off the end. -/
def batchAt (items : List Rec) (i : Nat) : Nat :=
  (((assignBatches items).get? i).bind Rec.batch).getD 0

/-! Concrete data for witnesses and counterexamples. -/

def dToday : PDate := ⟨2025, 3, 19⟩
def lL : Str := "L".data
def lC : Str := "C".data
def sX : Str := "x".data
def sFive : Str := "5".data
def sFiveX : Str := "5 x".data
def sHello : Str := "hello".data
def sIsoLine : Str := "done 2025-03-15".data
def sInvThenSix : Str := "32.13.25 010125".data
def sInvRemain : Str := "32.13.25".data
def sDotSlash : Str := "1.2.25 3/4/25".data
def sSlashTail : Str := "3/4/25".data
def sToL : Str := "to L".data
def sToTheL : Str := "to the L".data
def sToLJoined : Str := "toL".data
def sBL : Str := "bL".data
def sB : Str := "b".data
def sLamed : Str := "ל".data
def sKaf : Str := "כ".data
def sLamKaf : Str := "לכ".data
def sXLamKaf : Str := "xלכ".data
def sCherryTom : Str := "cherry tomatoes".data
def sBox : Str := "box".data
def sBoxChTom : Str := "box cherry tomatoes".data
def sOverlap : Str := "<This<This message was edited> message was edited>".data
def sMarkersOnly : Str := "<This message was edited> <Media omitted>".data
def sEightMedia : Str := "8 <Media omitted>".data
def sEight : Str := "8".data

def badCfg : Config := { unit_conversions := [(sX, [([], (5 : Rat))])] }
def badFillerCfg : Config := { filler_words := some [['\\']] }
def cfgL : Config := { locations := [lL] }
def cfg7 : Config :=
  { items := [sCherryTom], unit_conversions := [(sCherryTom, [(sBox, (1980 : Rat))])] }
def cfg8a : Config := { locations := [lL], prepositions := some [(sTo, [sB])] }
def cfgHe : Config := { locations := [sKaf], prepositions := some [(sTo, [sLamed])] }

def recC2 : Rec :=
  { qty := some 5, item := some sCherryTom, has_qty := true, has_item := true,
    location := some lL, direction := some sTo }

def recC5a : Rec := { location := some lL, has_item := true }
def recC5b : Rec := { location := some lC, has_item := true }
def demoC5 : List Rec := [recC5a, recC5b]

def recC7 : Rec := { item := some sCherryTom, has_item := true, location := some lL }

def rowC7 : Row :=
  { rdate := dToday, inv_type := some sCherryTom, batch := 1, notes := none,
    qty := -1, trans_type := some sW2B, vehicle_sub_unit := some sWarehouse }

/-! Helper lemmas. -/

theorem dropWhile_all {p : Char → Bool} :
    ∀ (ws rest : Str), (∀ c ∈ ws, p c = true) →
      (ws ++ rest).dropWhile p = rest.dropWhile p := by
  intro ws
  induction ws with
  | nil => intro rest _; rfl
  | cons w ws ih =>
    intro rest h
    have hw : p w = true := h w (List.mem_cons_self _ _)
    simp only [List.cons_append, List.dropWhile, hw]
    exact ih rest (fun c hc => h c (List.mem_cons_of_mem _ hc))

theorem dropWhile_idem {p : Char → Bool} :
    ∀ (l : Str), (l.dropWhile p).dropWhile p = l.dropWhile p := by
  intro l
  induction l with
  | nil => rfl
  | cons c cs ih =>
    by_cases hc : p c = true
    · simp only [List.dropWhile, hc]; exact ih
    · have hc2 : p c = false := by revert hc; cases p c <;> simp
      simp only [List.dropWhile, hc2]

theorem strip_dropWhile (s : Str) :
    strip (s.dropWhile (fun c => isSpaceC c)) = strip s := by
  unfold strip lstrip
  rw [dropWhile_idem]

/-- Under the stated shape (leading whitespace, a single sign, a remainder
not itself starting with a sign), the sign strip of the signed line equals
the sign strip of the remainder. -/
theorem stripSign_signed (ws : Str) (sign : Char) (rest : Str)
    (hws : ∀ c ∈ ws, isSpaceC c = true) (hsign : sign = '+' ∨ sign = '-')
    (hrest : ∀ c, (rest.dropWhile (fun c => isSpaceC c)).head? = some c →
      c ≠ '+' ∧ c ≠ '-') :
    stripSign (ws ++ sign :: rest) = stripSign rest := by
  have hs : isSpaceC sign = false := by rcases hsign with h | h <;> subst h <;> decide
  have h1 : (ws ++ sign :: rest).dropWhile (fun c => isSpaceC c) = sign :: rest := by
    rw [dropWhile_all ws (sign :: rest) hws]
    simp [List.dropWhile, hs]
  have h2 : (sign = '+' || sign = '-') = true := by
    rcases hsign with h | h <;> subst h <;> decide
  have hL : stripSign (ws ++ sign :: rest) = strip (rest.dropWhile (fun d => isSpaceC d)) := by
    unfold stripSign
    simp only [h1, h2, if_true]
  rw [hL, strip_dropWhile]
  unfold stripSign
  cases hdrop : rest.dropWhile (fun c => isSpaceC c) with
  | nil => rfl
  | cons c cs =>
    have hc := hrest c (by rw [hdrop]; rfl)
    have h3 : (c = '+' || c = '-') = false := by
      rcases hc with ⟨h4, h5⟩
      cases hcp : decide (c = '+') <;> cases hcm : decide (c = '-') <;> simp_all
    simp only [h3]
    simp

/-! Claim theorems. -/

/-- Claim C4: the parser is deterministic; identical text, config and
today always produce an identical result. In this pure embedding the
entry point is a function, so equal arguments give equal results. -/
theorem c4_deterministic (fz : Fuzzy) (t1 t2 : Str) (c1 c2 : Config) (d1 d2 : PDate)
    (ht : t1 = t2) (hc : c1 = c2) (hd : d1 = d2) :
    parse fz t1 c1 d1 = parse fz t2 c2 d2 := by
  subst ht; subst hc; subst hd; rfl

theorem c4_deterministic_witness :
    parse noFuzzy sToL cfgL dToday = parse noFuzzy sToL cfgL dToday :=
  c4_deterministic noFuzzy sToL sToL cfgL cfgL dToday dToday rfl rfl rfl

/-- Claim C9: a line made of optional whitespace, one leading plus or
minus sign and a remainder whose first nonblank character is not another
sign parses exactly like the remainder alone, apart from the recorded raw
text; in particular no field of the record (the extracted quantity
included) differs. -/
theorem c9_sign_strip (fz : Fuzzy) (cfg : Config) (ws : Str) (sign : Char) (rest : Str)
    (hws : ∀ c ∈ ws, isSpaceC c = true) (hsign : sign = '+' ∨ sign = '-')
    (hrest : ∀ c, (rest.dropWhile (fun c => isSpaceC c)).head? = some c →
      c ≠ '+' ∧ c ≠ '-') :
    parseLine fz (ws ++ sign :: rest) cfg =
      Except.map (fun r => { r with raw := ws ++ sign :: rest }) (parseLine fz rest cfg) := by
  unfold parseLine
  rw [stripSign_signed ws sign rest hws hsign hrest]
  cases parseLineCore fz cfg (stripSign rest) with
  | error e => rfl
  | ok r => rfl

theorem c9_sign_strip_witness :
    parseLine noFuzzy (' ' :: '-' :: sFiveX) {} =
      Except.map (fun r => { r with raw := ' ' :: '-' :: sFiveX }) (parseLine noFuzzy sFiveX {}) :=
  c9_sign_strip noFuzzy {} [' '] '-' sFiveX (by decide) (by decide)
    (by
      intro c hc
      have h5 : (sFiveX.dropWhile (fun c => isSpaceC c)).head? = some '5' := by decide
      rw [h5] at hc
      injection hc with h6
      subst h6
      decide)

/-- Claim C2: a record the row generator treats as a transfer (location
present, different from the default source, type not in the non-zero-sum
set) yields exactly two rows sharing batch and canonical item, with
quantities minus and plus the absolute quantity, which sum to zero;
normally the source is the default source and the destination the
location, and a from direction swaps them. -/
theorem c2_transfer_pair (item : Rec) (cfg : Config) (today : PDate) (ℓ : Str)
    (hloc : item.location = some ℓ) (hne : ℓ ≠ []) (hnd : ℓ ≠ defaultSourceOf cfg)
    (hnz : inNonZero item.trans_type cfg = false) :
    ∃ r1 r2, itemToRows item cfg today = [r1, r2]
      ∧ r1.batch = r2.batch ∧ r1.inv_type = item.item ∧ r2.inv_type = item.item
      ∧ r1.qty = -(abs (item.qty.getD 1)) ∧ r2.qty = abs (item.qty.getD 1)
      ∧ r1.qty + r2.qty = 0
      ∧ (item.direction ≠ some sFrom →
          r1.vehicle_sub_unit = some (defaultSourceOf cfg) ∧ r2.vehicle_sub_unit = some ℓ)
      ∧ (item.direction = some sFrom →
          r1.vehicle_sub_unit = some ℓ ∧ r2.vehicle_sub_unit = some (defaultSourceOf cfg)) := by
  have ht : truthyS item.location = true := by
    rw [hloc]; simp only [truthyS]; exact decide_eq_true hne
  have hgd : item.location.getD [] = ℓ := by rw [hloc]; rfl
  simp only [itemToRows, hnz, ht, hgd, Bool.false_eq_true, if_false,
    decide_eq_true hnd, Bool.and_self, if_true]
  by_cases hdir : item.direction = some sFrom
  · rw [if_pos hdir]
    refine ⟨_, _, rfl, rfl, rfl, rfl, rfl, rfl, ?_, ?_, ?_⟩
    · show -(abs (item.qty.getD 1)) + abs (item.qty.getD 1) = 0
      exact neg_add_cancel _
    · intro h; exact absurd hdir h
    · intro _; exact ⟨rfl, rfl⟩
  · rw [if_neg hdir]
    refine ⟨_, _, rfl, rfl, rfl, rfl, rfl, rfl, ?_, ?_, ?_⟩
    · show -(abs (item.qty.getD 1)) + abs (item.qty.getD 1) = 0
      exact neg_add_cancel _
    · intro _; exact ⟨rfl, rfl⟩
    · intro h; exact absurd h hdir

theorem c2_transfer_pair_witness :
    ∃ r1 r2, itemToRows recC2 {} dToday = [r1, r2]
      ∧ r1.batch = r2.batch ∧ r1.inv_type = recC2.item ∧ r2.inv_type = recC2.item
      ∧ r1.qty = -(abs (recC2.qty.getD 1)) ∧ r2.qty = abs (recC2.qty.getD 1)
      ∧ r1.qty + r2.qty = 0
      ∧ (recC2.direction ≠ some sFrom →
          r1.vehicle_sub_unit = some (defaultSourceOf {}) ∧ r2.vehicle_sub_unit = some lL)
      ∧ (recC2.direction = some sFrom →
          r1.vehicle_sub_unit = some lL ∧ r2.vehicle_sub_unit = some (defaultSourceOf {})) :=
  c2_transfer_pair recC2 {} dToday lL rfl (by decide) (by decide) (by decide)

/-- Claim C1 counterexample: a config holding a blank unit-conversion
container key makes the container variant computation index an empty
word list, so the pipeline raises on any line carrying a number; the
claim promised a result for every text and every config. -/
theorem c1_counterexample : parse noFuzzy sFive badCfg dToday = .error errIndex := by decide

/-- Claim C3 counterexample: the input consists of one nonempty line, a
bare destination header, yet rows, notes and unparseable are all empty:
the line is dropped rather than accounted for in one of the three
outputs. -/
theorem c3_counterexample :
    parse noFuzzy sToL cfgL dToday = .ok ⟨[], [], []⟩
    ∧ ((splitNL (stripMetadata sToL)).map strip).filter (fun l => l ≠ []) = [sToL] := by
  decide

/-- Claim C6 counterexample: an ISO formatted date is not extracted, the
line date extractor has no such pattern; the claim listed ISO as the
fourth pattern tried. -/
theorem c6_counterexample : extractDate sIsoLine = (none, sIsoLine) := by decide

theorem extractDateSix_none (s : Str) :
    (extractDateSix s).1 = none → (extractDateSix s).2 = s := by
  unfold extractDateSix
  cases hs : sixResult s with
  | none => intro _; rfl
  | some v =>
    obtain ⟨dt, rem⟩ := v
    intro h
    exact Option.noConfusion h

theorem extractDateSlash_none (s : Str) :
    (extractDateSlash s).1 = none → (extractDateSlash s).2 = s := by
  unfold extractDateSlash
  cases hs : slashResult s with
  | none => exact extractDateSix_none s
  | some v =>
    obtain ⟨dt, rem⟩ := v
    intro h
    exact Option.noConfusion h

/-- Claim C6 amended: the extractor tries the dot pattern, then the slash
pattern, then six bare digits, with no ISO pattern; a calendar-invalid
match falls through to the next pattern; the first valid match wins and
its span is removed; and whenever no date is found the line text is
returned unchanged. -/
theorem c6_amended :
    extractDate sInvThenSix = (some ⟨2025, 1, 1⟩, sInvRemain)
    ∧ extractDate sDotSlash = (some ⟨2025, 2, 1⟩, sSlashTail)
    ∧ extractDate sHello = (none, sHello)
    ∧ ∀ s : Str, (extractDate s).1 = none → (extractDate s).2 = s := by
  refine ⟨by decide, by decide, by decide, ?_⟩
  intro s
  unfold extractDate
  cases hs : dotResult s with
  | none => exact extractDateSlash_none s
  | some v =>
    obtain ⟨dt, rem⟩ := v
    intro h
    exact Option.noConfusion h

theorem c6_amended_witness :
    (extractDate sHello).1 = none ∧ (extractDate sHello).2 = sHello :=
  ⟨by decide, c6_amended.2.2.2 sHello (by decide)⟩

/-- Claim C7 counterexample: a line holding a configured container name
but no integer gets neither a default quantity nor a container from the
quantity extractor, which returns the line unchanged; the claim promised
a bare-container match with quantity one. -/
theorem c7_counterexample :
    extractQty cfg7 sBoxChTom = .ok (none, none, sBoxChTom)
    ∧ isSubCS sBox sBoxChTom = true ∧ memS sBox (allContainerNames cfg7) = true := by
  decide

theorem matchNum_nil (prev : Option Char) : matchNum prev [] = none := by
  unfold matchNum
  cases bnd prev ([] : Str).head? <;> simp [digitsRun, countLeading]

theorem matchMult_nil (prev : Option Char) : matchMult prev [] = none := by
  unfold matchMult
  cases bnd prev ([] : Str).head? <;> simp [digitsRun, countLeading]

theorem scan_matchNum_none :
    ∀ (s : Str) (prev : Option Char) (i : Nat), (∀ c ∈ s, isDigitC c = false) →
      scanA matchNum prev i s = none := by
  intro s
  induction s with
  | nil =>
    intro prev i _
    unfold scanA
    rw [matchNum_nil]
  | cons c cs ih =>
    intro prev i h
    have hc : isDigitC c = false := h c (List.mem_cons_self _ _)
    have hrun : digitsRun (c :: cs) = 0 := by simp [digitsRun, countLeading, hc]
    have hm : matchNum prev (c :: cs) = none := by
      unfold matchNum
      rw [hrun]
      simp
    simp only [scanA, hm]
    exact ih (some c) (i + 1) (fun d hd => h d (List.mem_cons_of_mem _ hd))

theorem scan_matchMult_none :
    ∀ (s : Str) (prev : Option Char) (i : Nat), (∀ c ∈ s, isDigitC c = false) →
      scanA matchMult prev i s = none := by
  intro s
  induction s with
  | nil =>
    intro prev i _
    unfold scanA
    rw [matchMult_nil]
  | cons c cs ih =>
    intro prev i h
    have hc : isDigitC c = false := h c (List.mem_cons_self _ _)
    have hrun : digitsRun (c :: cs) = 0 := by simp [digitsRun, countLeading, hc]
    have hm : matchMult prev (c :: cs) = none := by
      unfold matchMult
      rw [hrun]
      simp
    simp only [scanA, hm]
    exact ih (some c) (i + 1) (fun d hd => h d (List.mem_cons_of_mem _ hd))

/-- Claim C7 amended: with no integer in the line and no half-a-container
match, the quantity extractor returns no quantity, no container and the
unchanged text; the quantity of such a record defaults to one only later,
in the row generator, where every emitted row carries quantity one up to
sign. -/
theorem c7_amended :
    (∀ (cfg : Config) (s : Str), (∀ c ∈ s, isDigitC c = false) →
      search matchHalfA s = none → extractQty cfg s = .ok (none, none, s))
    ∧ ∀ (item : Rec) (cfg : Config) (today : PDate), item.qty = none →
        ∀ r ∈ itemToRows item cfg today, r.qty = 1 ∨ r.qty = -1 := by
  constructor
  · intro cfg s hdig hhalf
    unfold extractQty
    rw [hhalf]
    unfold extractQtyNum
    unfold search
    rw [scan_matchMult_none s none 0 hdig, scan_matchNum_none s none 0 hdig]
  · intro item cfg today hq r hr
    unfold itemToRows at hr
    rw [hq] at hr
    simp only [Option.getD_none] at hr
    split at hr
    · simp at hr; subst hr; left; rfl
    · split at hr
      · split at hr <;>
        · simp at hr
          rcases hr with h | h <;> subst h
          · right; simp [abs_one]
          · left; exact abs_one
      · split at hr <;>
        · simp at hr
          subst hr
          left
          exact abs_one

theorem c7_amended_witness :
    extractQty cfg7 sBoxChTom = .ok (none, none, sBoxChTom)
    ∧ rowC7 ∈ itemToRows recC7 {} dToday ∧ (rowC7.qty = 1 ∨ rowC7.qty = -1) :=
  ⟨c7_amended.1 cfg7 sBoxChTom (by decide) (by decide),
   by decide,
   c7_amended.2 recC7 {} dToday rfl rowC7 (by decide)⟩

/-- Claim C8 counterexample: a one-letter ASCII preposition is short, yet
its direct concatenation with the location does not match, because the
source takes the concatenation-tolerant branch only for prepositions that
are both short and non-ASCII. -/
theorem c8_counterexample :
    sB.length ≤ 2 ∧ extractLocation noFuzzy cfg8a sBL = (none, sBL) := by decide

theorem startsCI_self_append : ∀ (p t : Str), startsCI p (p ++ t) = true := by
  intro p
  induction p with
  | nil => intro t; rfl
  | cons c cs ih =>
    intro t
    show (eqCI c c && startsCI cs (cs ++ t)) = true
    rw [ih t]
    simp [eqCI]

/-- Claim C8 amended: a preposition that is both short and non-ASCII
matches from the line start directly concatenated with the location;
the same Hebrew preposition requires start or whitespace before it; a
short ASCII preposition takes the other branch and does not concatenate;
a long ASCII preposition tolerates an intervening article and requires a
word boundary after the location. -/
theorem c8_amended :
    (∀ prep loc : Str, shortNonAscii prep = true →
      (∀ c, loc.head? = some c → isDashSpace c = false) →
      locPattern prep loc none (prep ++ loc) = some (prep.length + loc.length))
    ∧ extractLocation noFuzzy cfgHe sLamKaf = (some (sKaf, sTo), [])
    ∧ extractLocation noFuzzy cfgHe sXLamKaf = (none, sXLamKaf)
    ∧ extractLocation noFuzzy cfg8a sBL = (none, sBL)
    ∧ extractLocation noFuzzy cfgL sToTheL = (some (lL, sTo), [])
    ∧ extractLocation noFuzzy cfgL sToLJoined = (none, sToLJoined) := by
  refine ⟨?_, by decide, by decide, by decide, by decide, by decide⟩
  intro prep loc hshort hloc
  unfold locPattern
  rw [hshort]
  simp only [if_true]
  unfold matchLocA
  have hstarts : startsCI prep (prep ++ loc) = true := startsCI_self_append prep loc
  simp only [hstarts, Bool.and_true, List.drop_left]
  have hss : startsCI loc loc = true := by
    have h0 := startsCI_self_append loc []
    rwa [List.append_nil] at h0
  have hstar : starLocA loc loc = some loc.length := by
    unfold starLocA
    have hr : countLeading isDashSpace loc = 0 := by
      cases hl : loc with
      | nil => rfl
      | cons c cs =>
        have := hloc c (by rw [hl]; rfl)
        simp [countLeading, this]
    rw [hr]
    simp [List.findSome?, hss, List.drop_length, List.range_succ]
  simp [hstar]

theorem c8_amended_witness :
    locPattern sLamed sKaf none (sLamed ++ sKaf) = some (sLamed.length + sKaf.length) :=
  c8_amended.1 sLamed sKaf (by decide)
    (by
      intro c hc
      have h0 : sKaf.head? = some 'כ' := by decide
      rw [h0] at hc
      injection hc with h1
      subst h1
      decide)

/-- Claim C10 counterexample: removing an inner occurrence of the edited
marker splices the surrounding text into a fresh marker occurrence, which
survives preprocessing and lands verbatim in the notes; the claim said
the markers never appear in any output entry. -/
theorem c10_counterexample :
    parse noFuzzy sOverlap {} dToday = .ok ⟨[], [marker1], []⟩
    ∧ isSubCS marker1 sOverlap = true := by decide

/-- Claim C10 amended: both markers are removed case insensitively in one
left-to-right pass each before line splitting, so an input consisting
only of markers yields an empty result and a marker inside a line is
dropped from it; only a new occurrence spliced together by a removal can
survive. -/
theorem c10_amended :
    stripMetadata sMarkersOnly = []
    ∧ parse noFuzzy sMarkersOnly {} dToday = .ok ⟨[], [], []⟩
    ∧ parse noFuzzy sEightMedia {} dToday = .ok ⟨[], [], [sEight]⟩ := by decide

theorem classifyGo_spec (items : List Rec) :
    classifyGo items =
      (items.filter (fun r => decide (fate r = Fate.txn)),
       (items.filter (fun r => decide (fate r = Fate.note))).map Rec.raw,
       (items.filter (fun r => decide (fate r = Fate.qtyOnly) || decide (fate r = Fate.junk))).map Rec.raw) := by
  induction items with
  | nil => rfl
  | cons r rest ih =>
    cases h1 : r.has_item <;> cases h2 : r.has_qty <;> cases h3 : isContextRec r <;>
      cases h4 : isNote r <;>
      simp [classifyGo, ih, fate, List.filter, h1, h2, h3, h4]

/-- Claim C3 amended: the result generator accounts for every record in
exactly one of four ways, read off an independent classification of the
record shape: transaction records (which always yield at least one row),
notes, unparseable entries, and dropped context headers. -/
theorem c3_accounting (items : List Rec) (cfg : Config) (today : PDate) :
    (generateResult items cfg today).notes =
        (items.filter (fun r => decide (fate r = Fate.note))).map Rec.raw
    ∧ (generateResult items cfg today).unparseable =
        (items.filter (fun r => decide (fate r = Fate.qtyOnly) || decide (fate r = Fate.junk))).map Rec.raw
    ∧ (generateResult items cfg today).rows =
        ((assignBatches (items.filter (fun r => decide (fate r = Fate.txn)))).map
          (fun r => itemToRows r cfg today)).flatten
    ∧ ∀ r : Rec, itemToRows r cfg today ≠ [] := by
  refine ⟨?_, ?_, ?_, ?_⟩
  · unfold generateResult
    rw [classifyGo_spec]
  · unfold generateResult
    rw [classifyGo_spec]
  · unfold generateResult
    rw [classifyGo_spec]
  · intro r
    simp only [itemToRows]
    split_ifs <;> simp

theorem getLast?_orElse {α : Type} (a : α) (l : List α) :
    (a :: l).getLast? =
      match l.getLast? with
      | some w => some w
      | none => some a := by
  induction l generalizing a with
  | nil => rfl
  | cons b t ih =>
    rw [List.getLast?_cons_cons, ih b]
    cases t.getLast? <;> rfl

theorem prevG_bridge {α : Type} (dflt : Option α) (proj : Rec → Option α) (x : Rec)
    (xs : List Rec) (j : Nat) :
    prevG dflt proj (x :: xs) (j + 1) =
      prevG (if (proj x).isSome then proj x else dflt) proj xs j := by
  unfold prevG
  rw [List.take_succ_cons, List.filterMap_cons]
  cases hx : proj x with
  | none => simp
  | some v =>
    simp only [Option.isSome_some, if_true]
    rw [getLast?_orElse]
    cases ((xs.take j).filterMap proj).getLast? <;> rfl

theorem prevAt_bridge {α : Type} (proj : Rec → Option α) (x : Rec) (xs : List Rec) (j : Nat) :
    prevAt proj (x :: xs) (j + 1) = prevG (proj x) proj xs j := by
  unfold prevAt prevG
  rw [List.take_succ_cons, List.filterMap_cons]
  cases hx : proj x with
  | none => cases ((xs.take j).filterMap proj).getLast? <;> rfl
  | some v => rw [getLast?_orElse]

theorem assignGo_cons (pl : Option Str) (pd : Option PDate) (b : Nat) (x : Rec)
    (xs : List Rec) :
    assignGo pl pd b (x :: xs) =
      { x with batch := some (b + (if stepB pl pd x then 1 else 0)) } ::
        assignGo (if x.location.isSome then x.location else pl)
          (if x.pdate.isSome then x.pdate else pd)
          (b + (if stepB pl pd x then 1 else 0)) xs := by
  cases hA : (x.location.isSome && pl.isSome && decide (x.location ≠ pl)) <;>
    cases hB : (x.pdate.isSome && pd.isSome && decide (x.pdate ≠ pd)) <;>
      (simp only [assignGo, stepB, hA, hB]; simp)

theorem stepG_bridge (pl : Option Str) (pd : Option PDate) (x : Rec) (xs : List Rec)
    (j : Nat) :
    stepG pl pd (x :: xs) (j + 1) =
      stepG (if x.location.isSome then x.location else pl)
        (if x.pdate.isSome then x.pdate else pd) xs j := by
  unfold stepG
  rw [show (x :: xs).get? (j + 1) = xs.get? j from rfl]
  rw [prevG_bridge, prevG_bridge]

theorem incrCond_bridge (x : Rec) (xs : List Rec) (j : Nat) :
    incrCond (x :: xs) (j + 1) = stepG x.location x.pdate xs j := by
  unfold incrCond stepG
  rw [show (x :: xs).get? (j + 1) = xs.get? j from rfl]
  rw [prevAt_bridge, prevAt_bridge]

theorem assignGo_step :
    ∀ (l : List Rec) (pl : Option Str) (pd : Option PDate) (b : Nat) (i : Nat),
      i + 1 < l.length →
      ((assignGo pl pd b l).get? (i + 1)).bind Rec.batch =
        some (((((assignGo pl pd b l).get? i).bind Rec.batch).getD 0) +
          (if stepG pl pd l (i + 1) then 1 else 0)) := by
  intro l
  induction l with
  | nil => intro pl pd b i h; simp at h
  | cons x xs ih =>
    intro pl pd b i h
    rw [assignGo_cons, stepG_bridge]
    cases i with
    | zero =>
      cases xs with
      | nil => simp at h
      | cons y ys =>
        rw [assignGo_cons]
        simp [stepG, prevG]
    | succ k =>
      have h2 : k + 1 < xs.length := by
        simp only [List.length_cons] at h
        omega
      simp only [List.get?_cons_succ]
      exact ih _ _ _ k h2

theorem assignGo_ge :
    ∀ (l : List Rec) (pl : Option Str) (pd : Option PDate) (b : Nat) (i : Nat),
      i < l.length → b ≤ ((((assignGo pl pd b l).get? i).bind Rec.batch).getD 0) := by
  intro l
  induction l with
  | nil => intro pl pd b i h; simp at h
  | cons x xs ih =>
    intro pl pd b i h
    rw [assignGo_cons]
    cases i with
    | zero => cases stepB pl pd x <;> simp
    | succ k =>
      have h2 : k < xs.length := by
        simp only [List.length_cons] at h
        omega
      simp only [List.get?_cons_succ]
      calc b ≤ b + (if stepB pl pd x then 1 else 0) := Nat.le_add_right _ _
        _ ≤ _ := ih _ _ _ k h2

/-- Claim C5: the batch assigner gives the first record batch one; each
later record increments the batch exactly when its non-null location
differs from the previous non-null location or, only when the location
branch did not fire, when its non-null date differs from the previous
non-null date; a record with both fields null never forces a new batch;
and batch numbers are at least one and contiguous, each step moving by
the stated zero-or-one increment. -/
theorem c5_batches (first : Rec) (rest : List Rec) :
    batchAt (first :: rest) 0 = 1
    ∧ (∀ i, i + 1 < (first :: rest).length →
        batchAt (first :: rest) (i + 1) =
          batchAt (first :: rest) i + (if incrCond (first :: rest) (i + 1) then 1 else 0))
    ∧ (∀ i, i < (first :: rest).length → 1 ≤ batchAt (first :: rest) i)
    ∧ (∀ i cur, (first :: rest).get? (i + 1) = some cur →
        cur.location = none → cur.pdate = none →
        batchAt (first :: rest) (i + 1) = batchAt (first :: rest) i) := by
  have hassign : assignBatches (first :: rest) =
      { first with batch := some 1 } :: assignGo first.location first.pdate 1 rest := rfl
  have hstep : ∀ i, i + 1 < (first :: rest).length →
      batchAt (first :: rest) (i + 1) =
        batchAt (first :: rest) i + (if incrCond (first :: rest) (i + 1) then 1 else 0) := by
    intro i h
    unfold batchAt
    rw [hassign, incrCond_bridge]
    cases i with
    | zero =>
      cases rest with
      | nil => simp at h
      | cons y ys =>
        rw [assignGo_cons]
        simp [stepG, prevG]
    | succ k =>
      have h2 : k + 1 < rest.length := by
        simp only [List.length_cons] at h
        omega
      simp only [List.get?_cons_succ]
      rw [assignGo_step rest first.location first.pdate 1 k h2]
      rfl
  refine ⟨?_, hstep, ?_, ?_⟩
  · unfold batchAt
    rw [hassign]
    rfl
  · intro i h
    unfold batchAt
    rw [hassign]
    cases i with
    | zero => exact Nat.le_refl 1
    | succ k =>
      have h2 : k < rest.length := by
        simp only [List.length_cons] at h
        omega
      simp only [List.get?_cons_succ]
      exact assignGo_ge rest first.location first.pdate 1 k h2
  · intro i cur hget hl hd
    have hlen : i + 1 < (first :: rest).length := by
      by_contra hh
      push_neg at hh
      rw [List.get?_eq_none.mpr hh] at hget
      exact Option.noConfusion hget
    rw [hstep i hlen]
    have hz : incrCond (first :: rest) (i + 1) = false := by
      unfold incrCond
      rw [hget]
      simp [stepB, hl, hd]
    rw [hz]
    simp

theorem c5_batches_witness :
    batchAt demoC5 0 = 1
    ∧ batchAt demoC5 1 = batchAt demoC5 0 + (if incrCond demoC5 1 then 1 else 0)
    ∧ 1 ≤ batchAt demoC5 1 :=
  ⟨(c5_batches recC5a [recC5b]).1,
   (c5_batches recC5a [recC5b]).2.1 0 (by decide),
   (c5_batches recC5a [recC5b]).2.2.1 1 (by decide)⟩

/-! Totality of the pipeline for well-formed configs, claim C1. -/

theorem okBind {α β : Type} (a : α) (f : α → Exc β) : (Except.ok a >>= f) = f a := rfl

theorem lookupA_isSome_of_mem_keys {α : Type} :
    ∀ (l : List (Str × α)) (k : Str), k ∈ l.map Prod.fst → (lookupA k l).isSome := by
  intro l
  induction l with
  | nil => intro k hk; simp at hk
  | cons p rest ih =>
    intro k hk
    unfold lookupA
    by_cases he : k = p.1
    · simp [he]
    · rw [if_neg he]
      apply ih
      simp only [List.map_cons, List.mem_cons] at hk
      rcases hk with h | h
      · exact absurd h he
      · exact h

theorem lookupA_mem {α : Type} :
    ∀ (l : List (Str × α)) (k : Str) (v : α), lookupA k l = some v → (k, v) ∈ l := by
  intro l
  induction l with
  | nil => intro k v h; exact Option.noConfusion h
  | cons p rest ih =>
    intro k v h
    unfold lookupA at h
    by_cases he : k = p.1
    · rw [if_pos he] at h
      injection h with h2
      have hkv : (k, v) = p := by rw [he, ← h2]
      rw [hkv]
      exact List.mem_cons_self _ _
    · rw [if_neg he] at h
      right
      exact ih k v h

theorem insertOver_values {P : Str → Prop} :
    ∀ (l : List (Str × Str)) (k v : Str), (∀ p ∈ l, P p.2) → P v →
      ∀ q ∈ insertOver l k v, P q.2 := by
  intro l
  induction l with
  | nil =>
    intro k v _ hv q hq
    simp only [insertOver, List.mem_singleton] at hq
    rw [hq]
    exact hv
  | cons p rest ih =>
    intro k v hl hv q hq
    unfold insertOver at hq
    by_cases he : k = p.1
    · rw [if_pos he] at hq
      rcases List.mem_cons.mp hq with h | h
      · rw [h]; exact hv
      · exact hl q (List.mem_cons_of_mem _ h)
    · rw [if_neg he] at hq
      rcases List.mem_cons.mp hq with h | h
      · rw [h]; exact hl p (List.mem_cons_self _ _)
      · exact ih k v (fun r hr => hl r (List.mem_cons_of_mem _ hr)) hv q h

theorem foldl_insertOver_values {P : Str → Prop} (f g : Str × Str → Str) :
    ∀ (l : List (Str × Str)) (acc : List (Str × Str)),
      (∀ p ∈ acc, P p.2) → (∀ p ∈ l, P (g p)) →
      ∀ q ∈ l.foldl (fun a p => insertOver a (f p) (g p)) acc, P q.2 := by
  intro l
  induction l with
  | nil => intro acc hacc _ q hq; exact hacc q hq
  | cons p rest ih =>
    intro acc hacc hl q hq
    rw [List.foldl_cons] at hq
    exact ih (insertOver acc (f p) (g p))
      (insertOver_values acc (f p) (g p) hacc (hl p (List.mem_cons_self _ _)))
      (fun r hr => hl r (List.mem_cons_of_mem _ hr)) q hq

theorem allAliasesOf_values (cfg : Config) :
    ∀ q ∈ allAliasesOf cfg, q.2 ∈ cfg.aliases.map Prod.fst := by
  intro q hq
  exact foldl_insertOver_values (fun p => lowerS p.1) (fun p => p.1) cfg.aliases []
    (fun r hr => absurd hr (List.not_mem_nil r))
    (fun p hp => List.mem_map_of_mem Prod.fst hp) q hq

theorem insDesc_mem {α : Type} (key : α → Nat) (x : α) :
    ∀ (l : List α) (y : α), y ∈ insDesc key x l → y = x ∨ y ∈ l := by
  intro l
  induction l with
  | nil =>
    intro y hy
    simp only [insDesc, List.mem_singleton] at hy
    exact Or.inl hy
  | cons z zs ih =>
    intro y hy
    unfold insDesc at hy
    by_cases hc : key x < key z
    · rw [if_pos hc] at hy
      rcases List.mem_cons.mp hy with h | h
      · exact Or.inr (List.mem_cons.mpr (Or.inl h))
      · rcases ih y h with h2 | h2
        · exact Or.inl h2
        · exact Or.inr (List.mem_cons_of_mem _ h2)
    · rw [if_neg hc] at hy
      rcases List.mem_cons.mp hy with h | h
      · exact Or.inl h
      · exact Or.inr h

theorem sortLenDescBy_mem {α : Type} (key : α → Nat) :
    ∀ (l : List α) (y : α), y ∈ sortLenDescBy key l → y ∈ l := by
  intro l
  induction l with
  | nil => intro y hy; exact absurd hy (List.not_mem_nil y)
  | cons x xs ih =>
    intro y hy
    rcases insDesc_mem key x (sortLenDescBy key xs) y hy with h | h
    · rw [h]; exact List.mem_cons_self _ _
    · exact List.mem_cons_of_mem _ (ih y h)

theorem containerVariants_ok (c : Str) (h : splitWS c ≠ []) :
    ∃ v, containerVariants c = .ok v := by
  unfold containerVariants
  have hsome : (splitWS c).getLast?.isSome := List.getLast?_isSome.mpr h
  obtain ⟨last, hlast⟩ := Option.isSome_iff_exists.mp hsome
  simp only [hlast]
  split <;> exact ⟨_, rfl⟩

theorem findContM_ok (amap : List (Str × Str)) :
    ∀ (l : List Str) (s : Str), (∀ c ∈ l, splitWS c ≠ []) →
      ∃ v, findContM amap l s = .ok v := by
  intro l
  induction l with
  | nil => intro s _; exact ⟨_, rfl⟩
  | cons c cs ih =>
    intro s h
    obtain ⟨vars, hvars⟩ := containerVariants_ok c (h c (List.mem_cons_self _ _))
    unfold findContM
    rw [hvars, okBind]
    cases (vars.findSome? fun v =>
        match matchVariantAnchored v s with
        | some rem => some rem
        | none => matchVariantSearch v s) with
    | some rem => exact ⟨_, rfl⟩
    | none => exact ih s (fun d hd => h d (List.mem_cons_of_mem _ hd))

theorem extractContainer_ok (cfg : Config) (hgc : GoodContainers cfg) (s : Str) :
    ∃ v, extractContainer cfg s = .ok v := by
  rcases hp : containersWithAliases cfg with ⟨amap, conts⟩
  unfold extractContainer
  rw [hp]
  apply findContM_ok
  intro c hc
  apply hgc
  unfold allContainerNames
  rw [hp]
  exact sortLenDescBy_mem _ conts c hc

theorem extractQtyNum_ok (cfg : Config) (hgc : GoodContainers cfg) (s : Str) :
    ∃ v, extractQtyNum cfg s = .ok v := by
  unfold extractQtyNum
  split
  · next i len a b heq =>
    obtain ⟨v, hv⟩ := extractContainer_ok cfg hgc (strip (removeSpan s i len))
    obtain ⟨cont, rem2⟩ := v
    rw [hv, okBind]
    exact ⟨_, rfl⟩
  · split
    · next i len n heq =>
      obtain ⟨v, hv⟩ := extractContainer_ok cfg hgc (strip (removeSpan s i len))
      obtain ⟨cont, rem2⟩ := v
      rw [hv, okBind]
      exact ⟨_, rfl⟩
    · exact ⟨_, rfl⟩

theorem extractQty_ok (cfg : Config) (hgc : GoodContainers cfg) (s : Str) :
    ∃ v, extractQty cfg s = .ok v := by
  unfold extractQty
  split
  · next i len heq =>
    obtain ⟨v, hv⟩ := extractContainer_ok cfg hgc (s.drop (i + len))
    obtain ⟨cont, afterCont⟩ := v
    rw [hv, okBind]
    split
    split
    · exact ⟨_, rfl⟩
    · exact extractQtyNum_ok cfg hgc s
  · exact extractQtyNum_ok cfg hgc s

theorem bind_ok_of {α β : Type} {e : Exc α} {f : α → Exc β}
    (he : ∃ v, e = .ok v) (hf : ∀ a, ∃ v, f a = .ok v) : ∃ v, (e >>= f) = .ok v := by
  obtain ⟨a, ha⟩ := he
  obtain ⟨v, hv⟩ := hf a
  exact ⟨v, by rw [ha, okBind, hv]⟩

theorem fuzzyWordHit_mem (fz : Fuzzy) (cands : List Str) (words : List Str)
    (hfz : FuzzyOK fz) (m : Str) (iw : Nat)
    (h : fuzzyWordHit fz cands words = some (m, iw)) : m ∈ cands := by
  obtain ⟨iw0, _, hf⟩ := List.exists_of_findSome?_eq_some h
  obtain ⟨w0, _, hf2⟩ := Option.bind_eq_some.mp hf
  cases hcond : (decide (strip w0 = []) || decide ((strip w0).length ≤ 2)) with
  | true => rw [hcond] at hf2; exact Option.noConfusion hf2
  | false =>
    rw [hcond] at hf2
    simp only [Bool.false_eq_true, if_false] at hf2
    obtain ⟨a, ha, hpair⟩ := Option.map_eq_some'.mp hf2
    injection hpair with h1 h2
    subst h1
    exact hfz _ _ _ _ ha

theorem extractVerb_ok (fz : Fuzzy) (cfg : Config) (s : Str) (hfz : FuzzyOK fz) :
    ∃ v, extractVerb fz cfg s = .ok v := by
  unfold extractVerb
  split
  · exact ⟨_, rfl⟩
  · split
    · exact ⟨_, rfl⟩
    · split
      · exact ⟨_, rfl⟩
      · split
        · split
          · next m iw heq =>
            have hmem : m ∈ (allVerbsOf cfg).map Prod.fst :=
              fuzzyWordHit_mem fz ((allVerbsOf cfg).map Prod.fst) (splitWS s) hfz m iw heq
            have hsome := lookupA_isSome_of_mem_keys (allVerbsOf cfg) m hmem
            cases hlook : lookupA m (allVerbsOf cfg) with
            | none => rw [hlook] at hsome; exact absurd hsome (by simp)
            | some tt => exact ⟨_, rfl⟩
          · exact ⟨_, rfl⟩
        · exact ⟨_, rfl⟩

theorem spanTry_ok (fz : Fuzzy) (cfg : Config) (span : Str) :
    ∃ v, spanTry fz cfg span = .ok v := by
  unfold spanTry
  cases hl : lookupA span (allAliasesOf cfg) with
  | none =>
    cases lookupA span (allNamesOf cfg) with
    | some item => exact ⟨_, rfl⟩
    | none => cases fz span (allTargetsOf cfg) _ with
      | some m => exact ⟨_, rfl⟩
      | none => exact ⟨_, rfl⟩
  | some orig =>
    have hval : orig ∈ cfg.aliases.map Prod.fst :=
      allAliasesOf_values cfg (span, orig) (lookupA_mem _ span orig hl)
    have hsome := lookupA_isSome_of_mem_keys cfg.aliases orig hval
    show ∃ v,
      (match lookupA orig cfg.aliases with
        | some tgt => Except.ok (some (some tgt, span))
        | none => Except.error errKey) = .ok v
    cases hl2 : lookupA orig cfg.aliases with
    | none => rw [hl2] at hsome; exact absurd hsome (by simp)
    | some tgt => exact ⟨_, rfl⟩

theorem findSomeM_ok {α β : Type} (f : α → Exc (Option β)) :
    ∀ (l : List α), (∀ a ∈ l, ∃ v, f a = .ok v) → ∃ v, findSomeM f l = .ok v := by
  intro l
  induction l with
  | nil => intro _; exact ⟨_, rfl⟩
  | cons a rest ih =>
    intro h
    obtain ⟨v, hv⟩ := h a (List.mem_cons_self _ _)
    unfold findSomeM
    rw [hv, okBind]
    cases v with
    | some b => exact ⟨_, rfl⟩
    | none => exact ih (fun x hx => h x (List.mem_cons_of_mem _ hx))

theorem matchItemBody_ok (fz : Fuzzy) (cfg : Config) (textClean tl : Str) :
    ∃ v, matchItemBody fz cfg textClean tl = .ok v := by
  unfold matchItemBody
  split
  · exact ⟨_, rfl⟩
  · split
    · exact ⟨_, rfl⟩
    · split
      · exact ⟨_, rfl⟩
      · split
        · exact ⟨_, rfl⟩
        · split
          · exact ⟨_, rfl⟩
          · apply bind_ok_of
            · apply findSomeM_ok
              intro spanLen _
              apply findSomeM_ok
              intro start _
              exact spanTry_ok fz cfg _
            · intro hit
              cases hit with
              | some p => obtain ⟨itemOpt, span⟩ := p; exact ⟨_, rfl⟩
              | none => exact ⟨_, rfl⟩

theorem matchItem_ok (fz : Fuzzy) (cfg : Config) (s : Str) :
    ∃ v, matchItem fz cfg s = .ok v := by
  unfold matchItem
  split
  · exact ⟨_, rfl⟩
  · exact matchItemBody_ok fz cfg _ _

theorem fillerStep_ok (acc p : Str) (h : fillerOk p = true) :
    ∃ v, fillerStep acc p = .ok v := by
  unfold fillerStep
  unfold fillerOk at h
  split
  · next hraw =>
    rw [hraw, Bool.not_true, Bool.false_or] at h
    obtain ⟨w, hw⟩ := Option.isSome_iff_exists.mp h
    rw [hw]
    exact ⟨_, rfl⟩
  · exact ⟨_, rfl⟩

theorem removeFillerGo_ok (ps : List Str) (h : ∀ p ∈ ps, fillerOk p = true) :
    ∀ acc, ∃ v, removeFillerGo ps acc = .ok v := by
  induction ps with
  | nil => intro acc; exact ⟨_, rfl⟩
  | cons p ps ih =>
    intro acc
    apply bind_ok_of (fillerStep_ok acc p (h p (List.mem_cons_self _ _)))
    intro acc2
    exact ih (fun q hq => h q (List.mem_cons_of_mem _ hq)) acc2

theorem removeFiller_ok (cfg : Config) (hgf : GoodFillers cfg) (s : Str) :
    ∃ v, removeFiller cfg s = .ok v := by
  unfold removeFiller
  obtain ⟨t, ht⟩ := removeFillerGo_ok (fillerOf cfg) hgf s
  rw [ht]
  exact ⟨_, rfl⟩

theorem disambig_ok (fz : Fuzzy) (cfg : Config) (hgc : GoodContainers cfg)
    (hgf : GoodFillers cfg) (r : Rec) (before : Str) :
    ∀ (nums : List Str), ∃ v, disambig fz cfg r before nums = .ok v := by
  intro nums
  induction nums generalizing r with
  | nil => exact ⟨_, rfl⟩
  | cons num rest ih =>
    unfold disambig
    split
    · exact ih r
    · apply bind_ok_of (removeFiller_ok cfg hgf _)
      intro trialText
      apply bind_ok_of (extractContainer_ok cfg hgc _)
      intro p
      obtain ⟨trialCont, trialAfter⟩ := p
      apply bind_ok_of (matchItem_ok fz cfg _)
      intro q
      obtain ⟨trialItem, trialRaw⟩ := q
      split
      split
      · exact ⟨_, rfl⟩
      · exact ih r

theorem finishRec_ok (fz : Fuzzy) (cfg : Config) (hgc : GoodContainers cfg)
    (hgf : GoodFillers cfg) (rem4 : Str) (r1 : Rec) :
    ∃ v, finishRec fz cfg rem4 r1 = .ok v := by
  unfold finishRec
  apply bind_ok_of
  · split
    · exact disambig_ok fz cfg hgc hgf _ _ _
    · exact ⟨_, rfl⟩
  · intro r2
    exact ⟨_, rfl⟩

theorem parseLineCore_ok (fz : Fuzzy) (cfg : Config) (hfz : FuzzyOK fz)
    (hgc : GoodContainers cfg) (hgf : GoodFillers cfg) (remaining : Str) :
    ∃ v, parseLineCore fz cfg remaining = .ok v := by
  unfold parseLineCore
  split
  · apply bind_ok_of (matchItem_ok fz cfg _)
    intro p
    obtain ⟨item, raw⟩ := p
    split
    split
    · exact ⟨_, rfl⟩
    · exact ⟨_, rfl⟩
  · split
    split
    apply bind_ok_of (extractVerb_ok fz cfg _ hfz)
    intro p
    obtain ⟨transType, rem3⟩ := p
    split
    split
    apply bind_ok_of (extractQty_ok cfg hgc _)
    intro q
    obtain ⟨qty, cont, rem5⟩ := q
    split
    apply bind_ok_of (removeFiller_ok cfg hgf _)
    intro rem5c
    apply bind_ok_of
    · split
      · apply bind_ok_of (matchItem_ok fz cfg _)
        intro w
        obtain ⟨item, raw⟩ := w
        split
        split
        · exact ⟨_, rfl⟩
        · exact ⟨_, rfl⟩
      · exact ⟨_, rfl⟩
    · intro triple
      obtain ⟨item1, raw1, unmatched1⟩ := triple
      split
      exact finishRec_ok fz cfg hgc hgf _ _

theorem parseLine_ok (fz : Fuzzy) (cfg : Config) (hfz : FuzzyOK fz)
    (hgc : GoodContainers cfg) (hgf : GoodFillers cfg) (text : Str) :
    ∃ v, parseLine fz text cfg = .ok v := by
  unfold parseLine
  obtain ⟨r, hr⟩ := parseLineCore_ok fz cfg hfz hgc hgf (stripSign text)
  rw [hr]
  exact ⟨_, rfl⟩

theorem mapExc_ok {α β : Type} (f : α → Exc β) :
    ∀ (l : List α), (∀ a ∈ l, ∃ v, f a = .ok v) → ∃ v, mapExc f l = .ok v := by
  intro l
  induction l with
  | nil => intro _; exact ⟨_, rfl⟩
  | cons a rest ih =>
    intro h
    obtain ⟨b, hb⟩ := h a (List.mem_cons_self _ _)
    obtain ⟨bs, hbs⟩ := ih (fun x hx => h x (List.mem_cons_of_mem _ hx))
    unfold mapExc
    rw [hb, okBind, hbs, okBind]
    exact ⟨_, rfl⟩

/-- A lone backslash configured as a filler entry is fed to the regex
engine verbatim and raises on any line reaching the filler step, so a
config with non-blank container names can still make the parser throw;
this is the branch the filler hypothesis of the totality theorem
excludes. -/
theorem parse_raw_filler_error :
    parse noFuzzy sFiveX badFillerCfg dToday = .error errRe := by decide

/-- Claim C1 amended: for every input text and every config whose
container names are non-blank and whose filler entries are each plain or
a boundary-wrapped literal-word raw pattern (the form the repository
uses; raw patterns outside this fragment are outside the model, and an
invalid one raises in the engine), the parser returns a result and never
raises; the fuzzy-matcher hypothesis records the membership guarantee
the difflib library provides. -/
theorem c1_parse_total (fz : Fuzzy) (text : Str) (cfg : Config) (today : PDate)
    (hfz : FuzzyOK fz) (hgc : GoodContainers cfg) (hgf : GoodFillers cfg) :
    ∃ r, parse fz text cfg today = .ok r := by
  unfold parse
  apply bind_ok_of
  · apply mapExc_ok
    intro l _
    exact parseLine_ok fz cfg hfz hgc hgf l
  · intro parsed
    exact ⟨_, rfl⟩

theorem c1_parse_total_witness :
    ∃ r, parse noFuzzy sBoxChTom cfg7 dToday = .ok r :=
  c1_parse_total noFuzzy sBoxChTom cfg7 dToday
    (by intro w cs c m hm; exact Option.noConfusion hm)
    (by unfold GoodContainers; decide)
    (by unfold GoodFillers; decide)

end InvParser
